import Mathlib

/-
Verification development for the Mission Control multi-agent coordinator.

The state of the system (Coordinator, AgentSession, CoordinatorAgent,
AsyncPushQueue) is embedded shallowly: resolver maps are represented by
their key lists (identifiers are Nat, standing for the generated UUIDs,
allocated from a monotone counter `nextId`), and the opaque agent engine
is represented by a script of events (`ask` raises a human-input request,
`crash` makes the engine stream throw).  Each public operation of the
source is transcribed as a function on `World`.
-/

/-- Lifecycle status of a worker agent session (types.ts `AgentStatus`). -/
inductive AgentStatus
  | starting
  | working
  | waiting_for_input
  | completed
  | errored
  | stopped
deriving DecidableEq, Repr

/-- Lifecycle status of the supervising coordinator (types.ts `CoordinatorStatus`). -/
inductive CoordinatorStatus
  | idle
  | running
  | stopped
deriving DecidableEq, Repr

/-- async-push-queue.ts: fields `queue` and `done` of `AsyncPushQueue`. -/
structure AsyncPushQueue (T : Type) where
  queue : List T
  done : Bool
deriving DecidableEq, Repr

/-- `AsyncPushQueue.push` (async-push-queue.ts 10-15): no-op once `done`. -/
def AsyncPushQueue.push {T : Type} (q : AsyncPushQueue T) (item : T) : AsyncPushQueue T :=
  if q.done then q else { q with queue := q.queue ++ [item] }

/-- `AsyncPushQueue.end` (async-push-queue.ts 17-21): marks no further items. -/
def AsyncPushQueue.endQ {T : Type} (q : AsyncPushQueue T) : AsyncPushQueue T :=
  { q with done := true }

/-- State of a consumer of the queue's async iterator
(async-push-queue.ts 23-33): the items yielded so far and whether the
iteration has returned. -/
structure QueueIter (T : Type) where
  q : AsyncPushQueue T
  yielded : List T
  terminated : Bool
deriving DecidableEq, Repr

/-- An interleaving step of producer and consumer of an `AsyncPushQueue`. -/
inductive QueueOp (T : Type)
  | push (x : T)
  | endQ
  | consume
deriving DecidableEq, Repr

/-- One scheduler step: `push`/`endQ` act on the queue; `consume` is one step
of the async iterator loop (yield the head, or return once `done` with an
empty backlog, or keep waiting). -/
def stepQueue {T : Type} (s : QueueIter T) (op : QueueOp T) : QueueIter T :=
  match op with
  | .push x => { s with q := s.q.push x }
  | .endQ => { s with q := s.q.endQ }
  | .consume =>
    if s.terminated then s
    else
      match s.q.queue with
      | x :: rest => { s with q := { s.q with queue := rest }, yielded := s.yielded ++ [x] }
      | [] => if s.q.done then { s with terminated := true } else s

/-- Run an interleaving from a fresh queue and iterator. -/
def runQueue {T : Type} (ops : List (QueueOp T)) : QueueIter T :=
  ops.foldl stepQueue ⟨⟨[], false⟩, [], false⟩

/-- The items the queue accepts from an op sequence: pushes that occur before
`endQ` (the flag records whether `endQ` has happened yet). -/
def acceptedPushes {T : Type} : List (QueueOp T) → Bool → List T
  | [], _ => []
  | .push x :: rest, false => x :: acceptedPushes rest false
  | .push _ :: rest, true => acceptedPushes rest true
  | .endQ :: rest, _ => acceptedPushes rest true
  | .consume :: rest, d => acceptedPushes rest d

/-- types.ts `PendingQuestion` (question items elided; `id` and `agentId` are
the generated identifiers). -/
structure PendingQuestion where
  id : Nat
  agentId : Nat
  projectName : String
deriving DecidableEq, Repr

/-- types.ts `EscalatedQuestion`: a `PendingQuestion` plus `coordinatorReason`. -/
structure EscalatedQuestion where
  id : Nat
  agentId : Nat
  projectName : String
  coordinatorReason : String
deriving DecidableEq, Repr

/-- types.ts `ActivityLogEntry`; `agentId = none` stands for the source's
literal string agent id used for coordinator entries. -/
structure ActivityLogEntry where
  id : Nat
  agentId : Option Nat
  projectName : String
  message : String
deriving DecidableEq, Repr

/-- Role of a chat message (types.ts `ChatMessage.role`). -/
inductive ChatRole
  | human
  | coordinator
deriving DecidableEq, Repr

/-- types.ts `ChatMessage` (artifacts and attachments elided). -/
structure ChatMessage where
  id : Nat
  role : ChatRole
  text : String
deriving DecidableEq, Repr

/-- The redacted snapshot `AgentSession.getInfo` returns
(agent-session.ts 43-59; cost and output fields elided). -/
structure AgentInfo where
  id : Nat
  projectName : String
  projectPath : String
  prompt : String
  status : AgentStatus
deriving DecidableEq, Repr

/-- An event of the opaque engine stream consumed by `AgentSession.start`:
`ask` is an `AskUserQuestion` interception, `crash` a rejection of the
stream (the catch branch of `start`). -/
inductive EngineEvent
  | ask
  | crash (msg : String)
deriving DecidableEq, Repr

/-- Control point of a session's engine loop: still consuming its script,
suspended inside `handleAskUserQuestion` awaiting the promise bridge, or
the loop has returned. -/
inductive SessionExec
  | running (rest : List EngineEvent)
  | awaitingAnswer (qid : Nat) (rest : List EngineEvent)
  | finished
deriving DecidableEq, Repr

/-- agent-session.ts `AgentSession`: `pendingResolvers` is the key set of the
promise-bridge map; `statusHistory` records every value `setStatus` ever
assigned (starting with the constructor's `starting`). -/
structure Session where
  id : Nat
  projectName : String
  projectPath : String
  prompt : String
  status : AgentStatus
  statusHistory : List AgentStatus
  pendingResolvers : List Nat
  exec : SessionExec
  error : Option String
  engineStopSignalled : Bool
deriving DecidableEq, Repr

/-- A message pushed onto the coordinator agent's input queue
(the three `pushUserMessage` call sites of coordinator-agent.ts). -/
inductive InputMsg
  | directive (text : String)
  | workerQuestion (qid : Nat)
  | escalationResolved (qid : Nat)
deriving DecidableEq, Repr

/-- coordinator-agent.ts `CoordinatorAgent`: `workerResolvers` stores, per
pending worker question id, the session id its stored resolver closure
resolves (`pendingWorkerResolvers`); `sessionId = none` models the empty
string before the engine assigns one. -/
structure CoordinatorAgent where
  running : Bool
  sessionId : Option Nat
  workerResolvers : List (Nat × Nat)
  inputQueue : AsyncPushQueue InputMsg
deriving DecidableEq, Repr

/-- types.ts `ServerMessage`, reduced to the identifying payload of each
broadcast event kind used by the claims. -/
inductive ServerMessage
  | agent_update (sid : Nat) (status : AgentStatus)
  | question_added (qid : Nat)
  | question_removed (qid : Nat)
  | activity (entryId : Nat)
  | chat_message (msgId : Nat)
  | coordinator_status (status : CoordinatorStatus)
  | escalation_added (qid : Nat)
  | escalation_removed (qid : Nat)
deriving DecidableEq, Repr

/-- The whole observable state: the `Coordinator`'s maps and log
(coordinator.ts 18-29), the registered sessions, the single coordinator
agent instance, the broadcast log, and the UUID source `nextId`. -/
structure World where
  sessions : List Session
  pendingQuestions : List PendingQuestion
  pendingEscalations : List EscalatedQuestion
  activityLog : List ActivityLogEntry
  chatHistory : List ChatMessage
  coordAgent : Option CoordinatorAgent
  coordinatorStatus : CoordinatorStatus
  broadcasts : List ServerMessage
  nextId : Nat
deriving DecidableEq, Repr

/-- The state of a freshly constructed `Coordinator` (server startup). -/
def initialWorld : World :=
  { sessions := [], pendingQuestions := [], pendingEscalations := [],
    activityLog := [], chatHistory := [], coordAgent := none,
    coordinatorStatus := .idle, broadcasts := [], nextId := 0 }

/-- `randomUUID()`: allocate a fresh identifier. -/
def freshId (w : World) : Nat × World :=
  (w.nextId, { w with nextId := w.nextId + 1 })

/-- Emit one message on the outbound event stream (`this.broadcast`). -/
def broadcastW (w : World) (m : ServerMessage) : World :=
  { w with broadcasts := w.broadcasts ++ [m] }

/-- `this.agents.get(id)` on the coordinator's session map. -/
def findSession (w : World) (sid : Nat) : Option Session :=
  w.sessions.find? (fun s => s.id == sid)

/-- Mutate the session object stored under `sid` (JS object mutation through
the map reference). -/
def updateSession (w : World) (sid : Nat) (f : Session → Session) : World :=
  { w with sessions := w.sessions.map (fun s => if s.id == sid then f s else s) }

/-- `AgentSession.setStatus` (agent-session.ts 198-201): assign the status and
re-broadcast the snapshot. -/
def setStatusW (w : World) (sid : Nat) (st : AgentStatus) : World :=
  broadcastW
    (updateSession w sid (fun s => { s with status := st, statusHistory := s.statusHistory ++ [st] }))
    (.agent_update sid st)

/-- `Map.set` on a resolver key set: an existing key keeps its place
(its value is overwritten), a new key is appended. -/
def setResolver (qid : Nat) (l : List Nat) : List Nat :=
  if qid ∈ l then l else l ++ [qid]

/-- `Map.set` on the pending-question map keyed by `id`. -/
def setQuestion (q : PendingQuestion) (l : List PendingQuestion) : List PendingQuestion :=
  if l.any (fun x => x.id == q.id) then l.map (fun x => if x.id == q.id then q else x)
  else l ++ [q]

/-- `Map.set` on the escalation map keyed by `id`. -/
def setEscalation (e : EscalatedQuestion) (l : List EscalatedQuestion) : List EscalatedQuestion :=
  if l.any (fun x => x.id == e.id) then l.map (fun x => if x.id == e.id then e else x)
  else l ++ [e]

/-- `Map.set` on `pendingWorkerResolvers` keyed by question id. -/
def setWorkerResolver (qid sid : Nat) (l : List (Nat × Nat)) : List (Nat × Nat) :=
  if l.any (fun p => p.1 == qid) then l.map (fun p => if p.1 == qid then (qid, sid) else p)
  else l ++ [(qid, sid)]

/-- The activity-log append of both `onActivity` handlers
(coordinator.ts 71-84 and 181-194): push, then trim to the 200 most
recent entries (`slice(-200)`). -/
def appendActivity (log : List ActivityLogEntry) (entry : ActivityLogEntry) : List ActivityLogEntry :=
  if 200 < (log ++ [entry]).length then (log ++ [entry]).drop ((log ++ [entry]).length - 200)
  else log ++ [entry]

/-- The coordinator's `onActivity` callback: build an entry with a fresh id,
append it to the capped log and broadcast it. -/
def onActivityW (w : World) (agentId : Option Nat) (projectName message : String) : World :=
  let (i, w1) := freshId w
  broadcastW
    { w1 with activityLog := appendActivity w1.activityLog ⟨i, agentId, projectName, message⟩ }
    (.activity i)

/-- `coordinatorAgent?.isRunning` as seen by the coordinator. -/
def coordRunning (w : World) : Bool :=
  match w.coordAgent with
  | some ca => ca.running
  | none => false

/-- `CoordinatorAgent.pushUserMessage` delivered through the input queue
(coordinator-agent.ts 214-244): the push respects the queue's `done` flag. -/
def pushInput (m : InputMsg) (ca : CoordinatorAgent) : CoordinatorAgent :=
  { ca with inputQueue := ca.inputQueue.push m }

/-- Apply a function to the coordinator agent instance if one exists. -/
def mapCoordAgent (w : World) (f : CoordinatorAgent → CoordinatorAgent) : World :=
  { w with coordAgent := w.coordAgent.map f }

/-- `AgentSession.resolveAnswer` (agent-session.ts 61-67): look the resolver up,
return `false` if the question is unknown, otherwise delete it from the map
before invoking it and return `true`.  Only the synchronous part of the
resolver invocation happens here; the awaited continuation is
`questionResumed`. -/
def resolveAnswer (sid qid : Nat) (w : World) : Bool × World :=
  match findSession w sid with
  | none => (false, w)
  | some s =>
    if qid ∈ s.pendingResolvers then
      (true, updateSession w sid
        (fun s' => { s' with pendingResolvers := s'.pendingResolvers.filter (fun x => x != qid) }))
    else (false, w)

/-- The continuation after the promise bridge resolves
(agent-session.ts 139-146): `onQuestionResolved` (coordinator.ts 62-70:
delete the pending question, broadcast `question_removed`, and delete a
matching escalation if present), then `setStatus('working')`, resume the
engine loop, and log the resume activity. -/
def questionResumed (sid qid : Nat) (w : World) : World :=
  let w1 := broadcastW
    { w with pendingQuestions := w.pendingQuestions.filter (fun q => q.id != qid) }
    (.question_removed qid)
  let w2 :=
    if w1.pendingEscalations.any (fun e => e.id == qid) then
      broadcastW
        { w1 with pendingEscalations := w1.pendingEscalations.filter (fun e => e.id != qid) }
        (.escalation_removed qid)
    else w1
  let w3 := setStatusW w2 sid .working
  let w4 := updateSession w3 sid (fun s =>
    match s.exec with
    | .awaitingAnswer qid' rest => if qid' == qid then { s with exec := .running rest } else s
    | _ => s)
  let pname := ((findSession w4 sid).map (fun s => s.projectName)).getD ""
  onActivityW w4 (some sid) pname "User answered - resuming work"

/-- A full resolution of a session's pending answer: the synchronous
`resolveAnswer` followed (on success) by the awaited continuation. -/
def resolveAnswerFull (sid qid : Nat) (w : World) : Bool × World :=
  let (ok, w1) := resolveAnswer sid qid w
  if ok then (true, questionResumed sid qid w1) else (false, w1)

/-- `Coordinator.submitAnswer` (coordinator.ts 123-131): look the question up,
then its owning session, and forward to the session's `resolveAnswer`. -/
def submitAnswer (qid : Nat) (w : World) : Bool × World :=
  match w.pendingQuestions.find? (fun q => q.id == qid) with
  | none => (false, w)
  | some q =>
    match findSession w q.agentId with
    | none => (false, w)
    | some _ => resolveAnswerFull q.agentId qid w

/-- `CoordinatorAgent.notifyWorkerQuestion` (coordinator-agent.ts 182-198):
store the worker resolver, then push the notification message onto the
continuous input queue. -/
def notifyWorkerQuestion (qid sid : Nat) (ca : CoordinatorAgent) : CoordinatorAgent :=
  pushInput (.workerQuestion qid)
    { ca with workerResolvers := setWorkerResolver qid sid ca.workerResolvers }

/-- The `onQuestion` callback installed by `Coordinator.startAgent`
(coordinator.ts 47-61): record the pending question, then either route it
to a running coordinator agent (broadcast, store resolver, notify) or
broadcast it directly to the dashboard. -/
def onQuestion (q : PendingQuestion) (sid : Nat) (w : World) : World :=
  let w1 := { w with pendingQuestions := setQuestion q w.pendingQuestions }
  match w1.coordAgent with
  | some ca =>
    if ca.running then
      let w2 := broadcastW w1 (.question_added q.id)
      { w2 with coordAgent := some (notifyWorkerQuestion q.id sid ca) }
    else broadcastW w1 (.question_added q.id)
  | none => broadcastW w1 (.question_added q.id)

/-- `AgentSession.handleAskUserQuestion` up to the `await`
(agent-session.ts 115-137): allocate a question id, transition to
`waiting_for_input`, emit the question and the activity entry, register
the promise-bridge resolver and suspend. -/
def handleAskUserQuestion (sid : Nat) (rest : List EngineEvent) (w : World) : World :=
  let (qid, w1) := freshId w
  let pname := ((findSession w1 sid).map (fun s => s.projectName)).getD ""
  let q : PendingQuestion := { id := qid, agentId := sid, projectName := pname }
  let w2 := setStatusW w1 sid .waiting_for_input
  let w3 := onQuestion q sid w2
  let w4 := onActivityW w3 (some sid) pname "Waiting for input"
  updateSession w4 sid (fun s =>
    { s with pendingResolvers := setResolver qid s.pendingResolvers,
             exec := .awaitingAnswer qid rest })

/-- The end of `AgentSession.start`'s engine loop (agent-session.ts 105-107):
status `completed` and the completion activity entry. -/
def sessionCompleted (sid : Nat) (w : World) : World :=
  let w1 := setStatusW w sid .completed
  let pname := ((findSession w1 sid).map (fun s => s.projectName)).getD ""
  let w2 := onActivityW w1 (some sid) pname "Agent completed"
  updateSession w2 sid (fun s => { s with exec := .finished })

/-- The catch branch of `AgentSession.start` (agent-session.ts 108-112):
record the error, status `errored`, and the error activity entry. -/
def sessionErrored (sid : Nat) (m : String) (w : World) : World :=
  let w1 := updateSession w sid (fun s => { s with error := some m })
  let w2 := setStatusW w1 sid .errored
  let pname := ((findSession w2 sid).map (fun s => s.projectName)).getD ""
  let w3 := onActivityW w2 (some sid) pname "Agent errored"
  updateSession w3 sid (fun s => { s with exec := .finished })

/-- Deliver the next engine event to a session: the loop body of
`AgentSession.start`.  The stream can also complete or reject while the
session is suspended in `handleAskUserQuestion` (the `for await` is
concurrently awaiting the next message), in which case the registered
resolver stays behind. -/
def engineStep (sid : Nat) (w : World) : World :=
  match findSession w sid with
  | none => w
  | some s =>
    match s.exec with
    | .running [] => sessionCompleted sid w
    | .running (.ask :: rest) => handleAskUserQuestion sid rest w
    | .running (.crash m :: _) => sessionErrored sid m w
    | .awaitingAnswer _ [] => sessionCompleted sid w
    | .awaitingAnswer _ (.crash m :: _) => sessionErrored sid m w
    | .awaitingAnswer _ (.ask :: _) => w
    | .finished => w

/-- `AgentSession.getInfo` (agent-session.ts 43-59), reduced to the modelled
fields. -/
def getInfo (s : Session) : AgentInfo :=
  { id := s.id, projectName := s.projectName, projectPath := s.projectPath,
    prompt := s.prompt, status := s.status }

/-- `Coordinator.startAgent` (coordinator.ts 41-96): construct the session
(initial status `starting`), register it, run the synchronous prefix of
`start()` (status `working` and the start activity entry; the engine loop
then suspends), and return `getInfo()`. -/
def startAgent (pn pp pr : String) (script : List EngineEvent) (w : World) : AgentInfo × World :=
  let (sidN, w1) := freshId w
  let session : Session :=
    { id := sidN, projectName := pn, projectPath := pp, prompt := pr,
      status := .starting, statusHistory := [.starting], pendingResolvers := [],
      exec := .running script, error := none, engineStopSignalled := false }
  let w2 := { w1 with sessions := w1.sessions ++ [session] }
  let w3 := setStatusW w2 sidN .working
  let w4 := onActivityW w3 (some sidN) pn "Agent started"
  (((findSession w4 sidN).map getInfo).getD (getInfo session), w4)

/-- Modelled from the spec: `AgentSession.stop` is absent from the sources
(only its caller `Coordinator.stopAgent` appears).  Per spec sections 4.2
and 5 it "signals the underlying engine to terminate and forces status to
`stopped`", leaving any promise-bridge registration of the session
orphaned (the session does not clean its resolver map). -/
def sessionStop (sid : Nat) (w : World) : World :=
  let w1 := updateSession w sid (fun s => { s with engineStopSignalled := true, exec := .finished })
  setStatusW w1 sid .stopped

/-- `Coordinator.stopAgent` (coordinator.ts 98-121): `false` for an unknown
session; otherwise stop the session, then remove every pending question
and every escalation owned by it, broadcasting one removal event each. -/
def stopAgent (sid : Nat) (w : World) : Bool × World :=
  match findSession w sid with
  | none => (false, w)
  | some _ =>
    let w1 := sessionStop sid w
    let removedQ : List PendingQuestion := w1.pendingQuestions.filter (fun q => q.agentId == sid)
    let qEvents : List ServerMessage := removedQ.map (fun q => ServerMessage.question_removed q.id)
    let w2 := { w1 with
      pendingQuestions := w1.pendingQuestions.filter (fun q => q.agentId != sid),
      broadcasts := w1.broadcasts ++ qEvents }
    let removedE : List EscalatedQuestion := w2.pendingEscalations.filter (fun e => e.agentId == sid)
    let eEvents : List ServerMessage := removedE.map (fun e => ServerMessage.escalation_removed e.id)
    let w3 := { w2 with
      pendingEscalations := w2.pendingEscalations.filter (fun e => e.agentId != sid),
      broadcasts := w2.broadcasts ++ eEvents }
    (true, w3)

/-- `CoordinatorAgent.sendDirective` (coordinator-agent.ts 177-180): silently
dropped unless the agent is running and the engine has assigned a session
id. -/
def caSendDirective (text : String) (ca : CoordinatorAgent) : CoordinatorAgent :=
  if ca.running && ca.sessionId.isSome then pushInput (.directive text) ca else ca

/-- The else-branch of `Coordinator.startCoordinator` (coordinator.ts 168-200):
construct a fresh `CoordinatorAgent` and run the synchronous prefix of its
`start()` (`running := true` and the `running` status broadcast; the
initial directive is the engine call's prompt, not a queue item). -/
def startCoordinatorFresh (w : World) : World :=
  let ca : CoordinatorAgent :=
    { running := true, sessionId := none, workerResolvers := [],
      inputQueue := { queue := [], done := false } }
  broadcastW { w with coordAgent := some ca, coordinatorStatus := .running }
    (.coordinator_status .running)

/-- `Coordinator.sendDirective` (coordinator.ts 207-225): always append the
human chat message first, then forward to a running coordinator agent or
auto-start a fresh one. -/
def sendDirective (text : String) (w : World) : World :=
  let (mid, w1) := freshId w
  let w2 := broadcastW
    { w1 with chatHistory := w1.chatHistory ++ [{ id := mid, role := .human, text := text }] }
    (.chat_message mid)
  match w2.coordAgent with
  | some ca =>
    if ca.running then { w2 with coordAgent := some (caSendDirective text ca) }
    else startCoordinatorFresh w2
  | none => startCoordinatorFresh w2

/-- `Coordinator.startCoordinator` (coordinator.ts 161-201): if an agent is
already running the directive is just sent; otherwise a fresh instance is
started. -/
def startCoordinator (text : String) (w : World) : World :=
  match w.coordAgent with
  | some ca => if ca.running then sendDirective text w else startCoordinatorFresh w
  | none => startCoordinatorFresh w

/-- `Coordinator.stopCoordinator` + `CoordinatorAgent.stop`
(coordinator.ts 203-205, coordinator-agent.ts 171-175 and the `finally` of
`start`): end the input queue, stop running, status `stopped`.  The
instance reference is kept. -/
def stopCoordinator (w : World) : World :=
  match w.coordAgent with
  | none => w
  | some ca =>
    broadcastW
      { w with coordAgent := some { ca with inputQueue := ca.inputQueue.endQ, running := false },
               coordinatorStatus := .stopped }
      (.coordinator_status .stopped)

/-- The coordinator agent's engine assigning its session id
(coordinator-agent.ts 246-251): record it and log the activity. -/
def coordSessionInit (csid : Nat) (w : World) : World :=
  match w.coordAgent with
  | none => w
  | some ca =>
    onActivityW { w with coordAgent := some { ca with sessionId := some csid } }
      none "Coordinator" "Coordinator session started"

/-- The `answer_worker_question` tool (coordinator-agent.ts 363-381): error if
no stored resolver; otherwise delete the resolver from
`pendingWorkerResolvers` before invoking it, and report success. -/
def answer_worker_question (qid : Nat) (w : World) : Bool × World :=
  match w.coordAgent with
  | none => (false, w)
  | some ca =>
    match ca.workerResolvers.find? (fun p => p.1 == qid) with
    | none => (false, w)
    | some p =>
      let ca1 := { ca with workerResolvers := ca.workerResolvers.filter (fun r => r.1 != qid) }
      let w1 := { w with coordAgent := some ca1 }
      let (_, w2) := resolveAnswerFull p.2 qid w1
      (true, w2)

/-- The `escalate_to_human` tool (coordinator-agent.ts 383-408): error if the
question is not pending; otherwise create the escalation (the
`onEscalation` callback of coordinator.ts 173-176 records and broadcasts
it). -/
def escalate_to_human (qid : Nat) (reason : String) (w : World) : Bool × World :=
  match w.coordAgent with
  | none => (false, w)
  | some _ =>
    match w.pendingQuestions.find? (fun q => q.id == qid) with
    | none => (false, w)
    | some q =>
      let e : EscalatedQuestion :=
        { id := q.id, agentId := q.agentId, projectName := q.projectName,
          coordinatorReason := reason }
      (true, broadcastW { w with pendingEscalations := setEscalation e w.pendingEscalations }
        (.escalation_added qid))

/-- `Coordinator.submitEscalationAnswer` (coordinator.ts 227-243) together
with `CoordinatorAgent.resolveEscalation` (coordinator-agent.ts 200-212):
`false` if no escalation is pending; with an agent instance and a stored
worker resolver, delete the resolver, invoke it (synchronous part), push
the resolution notice onto the input queue, remove the escalation, and
afterwards the worker's awaited continuation runs; otherwise fall back to
`submitAnswer`. -/
def submitEscalationAnswer (qid : Nat) (w : World) : Bool × World :=
  match w.pendingEscalations.find? (fun e => e.id == qid) with
  | none => (false, w)
  | some _ =>
    match w.coordAgent with
    | none => submitAnswer qid w
    | some ca =>
      match ca.workerResolvers.find? (fun p => p.1 == qid) with
      | none => submitAnswer qid w
      | some p =>
        let ca1 := { ca with workerResolvers := ca.workerResolvers.filter (fun r => r.1 != qid) }
        let w1 := { w with coordAgent := some ca1 }
        let (ok, w2) := resolveAnswer p.2 qid w1
        let w3 := mapCoordAgent w2 (pushInput (.escalationResolved qid))
        let w4 := broadcastW
          { w3 with pendingEscalations := w3.pendingEscalations.filter (fun e => e.id != qid) }
          (.escalation_removed qid)
        (true, if ok then questionResumed p.2 qid w4 else w4)

/-- A command on the system's public surface (WebSocket commands, the
coordinator agent's tool calls, and engine progress). -/
inductive Op
  | startAgent (projectName projectPath prompt : String) (script : List EngineEvent)
  | engineStep (sid : Nat)
  | submitAnswer (qid : Nat)
  | submitEscalationAnswer (qid : Nat)
  | answerWorkerQuestion (qid : Nat)
  | escalateToHuman (qid : Nat) (reason : String)
  | stopAgent (sid : Nat)
  | startCoordinator (directive : String)
  | sendDirective (text : String)
  | stopCoordinator
  | coordSessionInit (csid : Nat)
deriving DecidableEq, Repr

/-- The value an operation returns to its caller. -/
inductive OpResult
  | bool (b : Bool)
  | info (i : AgentInfo)
  | unit
deriving DecidableEq, Repr

/-- Dispatch one operation. -/
def applyOp (op : Op) (w : World) : OpResult × World :=
  match op with
  | .startAgent pn pp pr script =>
    let (i, w') := startAgent pn pp pr script w
    (.info i, w')
  | .engineStep sid => (.unit, engineStep sid w)
  | .submitAnswer qid =>
    let (b, w') := submitAnswer qid w
    (.bool b, w')
  | .submitEscalationAnswer qid =>
    let (b, w') := submitEscalationAnswer qid w
    (.bool b, w')
  | .answerWorkerQuestion qid =>
    let (b, w') := answer_worker_question qid w
    (.bool b, w')
  | .escalateToHuman qid reason =>
    let (b, w') := escalate_to_human qid reason w
    (.bool b, w')
  | .stopAgent sid =>
    let (b, w') := stopAgent sid w
    (.bool b, w')
  | .startCoordinator d => (.unit, startCoordinator d w)
  | .sendDirective t => (.unit, sendDirective t w)
  | .stopCoordinator => (.unit, stopCoordinator w)
  | .coordSessionInit csid => (.unit, coordSessionInit csid w)

/-- Run a list of operations, collecting each operation's result. -/
def runOpsAnn (w : World) : List Op → World × List (Op × OpResult)
  | [] => (w, [])
  | op :: rest =>
    let (r, w1) := applyOp op w
    let (wf, rs) := runOpsAnn w1 rest
    (wf, (op, r) :: rs)

/-- The question identity an answer-submission call targets (`submitAnswer`,
`submitEscalationAnswer`, or the coordinator's `answer_worker_question`
tool); `none` for every other operation. -/
def answerCallOf : Op → Option Nat
  | .submitAnswer q => some q
  | .submitEscalationAnswer q => some q
  | .answerWorkerQuestion q => some q
  | _ => none

/-- Whether an operation result is a success (`true`, or the tool's success
text result). -/
def isTrueResult : OpResult → Bool
  | .bool true => true
  | _ => false

/-- How many answer-submission calls for question `qid` returned success in a
run. -/
def answerTrueCount (rs : List (Op × OpResult)) (qid : Nat) : Nat :=
  rs.countP (fun p => answerCallOf p.1 == some qid && isTrueResult p.2)

/-- Whether an operation is a dashboard-side answer call
(`submitAnswer`/`submitEscalationAnswer`) for question `qid`. -/
def isDirectAnswerCall : Op → Nat → Bool
  | .submitAnswer q, qid => q == qid
  | .submitEscalationAnswer q, qid => q == qid
  | _, _ => false

/-- Whether an operation is the coordinator agent's `answer_worker_question`
tool call for question `qid`. -/
def isToolAnswerCall : Op → Nat → Bool
  | .answerWorkerQuestion q, qid => q == qid
  | _, _ => false

/-- Successful dashboard-side answer calls for `qid` in a run. -/
def directTrueCount (rs : List (Op × OpResult)) (qid : Nat) : Nat :=
  rs.countP (fun p => isDirectAnswerCall p.1 qid && isTrueResult p.2)

/-- Successful `answer_worker_question` calls for `qid` in a run. -/
def toolTrueCount (rs : List (Op × OpResult)) (qid : Nat) : Nat :=
  rs.countP (fun p => isToolAnswerCall p.1 qid && isTrueResult p.2)

/-- The session snapshots returned by the `startAgent` calls of a run. -/
def startedInfos (rs : List (Op × OpResult)) : List AgentInfo :=
  rs.filterMap (fun p => match p.2 with | .info i => some i | _ => none)

/-- The identities of the currently pending questions. -/
def questionIds (w : World) : List Nat :=
  w.pendingQuestions.map (fun q => q.id)

/-- The key set of the coordinator agent's `pendingWorkerResolvers` map
(empty when no instance exists). -/
def coordResolvers (w : World) : List (Nat × Nat) :=
  match w.coordAgent with
  | some ca => ca.workerResolvers
  | none => []

/-- The question identities holding a stored worker resolver. -/
def wkeys (w : World) : List Nat :=
  (coordResolvers w).map (fun p => p.1)

/-- The question `handleAskUserQuestion` records. -/
def askedQuestion (sid : Nat) (w : World) : PendingQuestion :=
  { id := w.nextId, agentId := sid,
    projectName := ((findSession w sid).map (fun s => s.projectName)).getD "" }

/-- Reachability invariant of the system state: identifiers held in the maps
were allocated from `nextId`; session identities are distinct; every
escalation shadows a pending question of the same session; every pending
question's owning session holds its promise-bridge resolver; and a stored
worker resolver targets the owning session of its question. -/
structure WorldInv (w : World) : Prop where
  qFresh : ∀ q ∈ w.pendingQuestions, q.id < w.nextId
  wFresh : ∀ p ∈ coordResolvers w, p.1 < w.nextId
  sFresh : ∀ s ∈ w.sessions, s.id < w.nextId
  sNodup : (w.sessions.map (fun s => s.id)).Nodup
  escQ : ∀ e ∈ w.pendingEscalations, ∃ q ∈ w.pendingQuestions, q.id = e.id ∧ q.agentId = e.agentId
  qRes : ∀ q ∈ w.pendingQuestions, ∃ s ∈ w.sessions, s.id = q.agentId ∧ q.id ∈ s.pendingResolvers
  wLink : ∀ p ∈ coordResolvers w, ∀ q ∈ w.pendingQuestions, q.id = p.1 → q.agentId = p.2

/-- FIFO invariant of the queue and its iterator: what has been yielded
followed by the backlog is exactly the accepted pushes, in push order. -/
theorem stepQueue_yield_inv {T : Type} (ops : List (QueueOp T)) :
    ∀ s : QueueIter T,
      (ops.foldl stepQueue s).yielded ++ (ops.foldl stepQueue s).q.queue
        = s.yielded ++ s.q.queue ++ acceptedPushes ops s.q.done := by
  induction ops with
  | nil => intro s; simp [acceptedPushes]
  | cons op rest ih =>
    intro s
    cases op with
    | push x =>
      by_cases hd : s.q.done
      · rw [List.foldl_cons, stepQueue, ih]
        simp [AsyncPushQueue.push, hd, acceptedPushes]
      · rw [List.foldl_cons, stepQueue, ih]
        simp only [AsyncPushQueue.push, hd, Bool.false_eq_true, if_false, acceptedPushes]
        simp [List.append_assoc]
    | endQ =>
      rw [List.foldl_cons, stepQueue, ih]
      simp [AsyncPushQueue.endQ, acceptedPushes]
    | consume =>
      by_cases ht : s.terminated
      · rw [List.foldl_cons, stepQueue, ih]
        simp [ht, acceptedPushes]
      · cases hq : s.q.queue with
        | cons x r =>
          rw [List.foldl_cons, stepQueue, ih]
          simp [ht, hq, acceptedPushes, List.append_assoc]
        | nil =>
          by_cases hd : s.q.done
          · rw [List.foldl_cons, stepQueue, ih]
            simp [ht, hq, hd, acceptedPushes]
          · rw [List.foldl_cons, stepQueue, ih]
            simp [ht, hq, hd, acceptedPushes]

/-- Termination invariant of the iterator: it only ever returns after `endQ`
with an empty backlog. -/
theorem stepQueue_terminated_inv {T : Type} (ops : List (QueueOp T)) :
    ∀ s : QueueIter T,
      (s.terminated = true → s.q.done = true ∧ s.q.queue = []) →
      ((ops.foldl stepQueue s).terminated = true →
        (ops.foldl stepQueue s).q.done = true ∧ (ops.foldl stepQueue s).q.queue = []) := by
  induction ops with
  | nil => intro s h; exact h
  | cons op rest ih =>
    intro s h
    rw [List.foldl_cons]
    apply ih
    cases op with
    | push x =>
      intro hterm
      simp only [stepQueue] at hterm ⊢
      have h2 := h hterm
      simp [AsyncPushQueue.push, h2.1, h2.2]
    | endQ =>
      intro hterm
      simp only [stepQueue] at hterm ⊢
      have h2 := h hterm
      simp [AsyncPushQueue.endQ, h2.2]
    | consume =>
      intro hterm
      by_cases ht : s.terminated
      · have h2 := h ht
        simp [stepQueue, ht, h2.1, h2.2]
      · simp only [stepQueue, ht, Bool.false_eq_true, if_false] at hterm ⊢
        cases hq : s.q.queue with
        | cons x r => simp [hq] at hterm
        | nil =>
          by_cases hd : s.q.done
          · simp [hq, hd]
          · exact absurd (by simpa [hq, hd] using hterm) ht

/-- C8: for the Continuous Input Channel (`AsyncPushQueue`), `push` after
`end` leaves the queue unchanged; consumption through the async iterator
yields pushed items in exactly push order (what has been yielded plus the
backlog equals the accepted pushes); and iteration terminates only after
`end` has been called with the backlog drained, at which point every
accepted item has been yielded. -/
theorem asyncPushQueue_fifo_and_termination (ops : List (QueueOp Nat)) (x : Nat) :
    ((runQueue ops).q.done = true → (runQueue ops).q.push x = (runQueue ops).q)
    ∧ (runQueue ops).yielded ++ (runQueue ops).q.queue = acceptedPushes ops false
    ∧ ((runQueue ops).terminated = true →
        (runQueue ops).q.done = true ∧ (runQueue ops).q.queue = []
          ∧ (runQueue ops).yielded = acceptedPushes ops false) := by
  refine ⟨?_, ?_, ?_⟩
  · intro hd
    simp [AsyncPushQueue.push, hd]
  · have h := stepQueue_yield_inv ops (⟨⟨[], false⟩, [], false⟩ : QueueIter Nat)
    simpa [runQueue] using h
  · intro hterm
    have h2' := stepQueue_terminated_inv ops (⟨⟨[], false⟩, [], false⟩ : QueueIter Nat)
      (by intro h; simp at h) hterm
    have h2 : (runQueue ops).q.done = true ∧ (runQueue ops).q.queue = [] := h2'
    have h := stepQueue_yield_inv ops (⟨⟨[], false⟩, [], false⟩ : QueueIter Nat)
    refine ⟨h2.1, h2.2, ?_⟩
    have h3 : (runQueue ops).yielded ++ (runQueue ops).q.queue = acceptedPushes ops false := by
      simpa [runQueue] using h
    rw [h2.2] at h3
    simpa using h3

/-- Witness for C8 at a concrete interleaving: two pushes, a drain, `endQ`,
a dropped late push, and iterator termination. -/
theorem asyncPushQueue_fifo_and_termination_witness :
    (runQueue [QueueOp.push 1, .push 2, .consume, .endQ, .push 9, .consume, .consume, .consume]).q.push 7
      = (runQueue [QueueOp.push 1, .push 2, .consume, .endQ, .push 9, .consume, .consume, .consume]).q
    ∧ (runQueue [QueueOp.push 1, .push 2, .consume, .endQ, .push 9, .consume, .consume, .consume]).yielded
        = acceptedPushes [QueueOp.push 1, .push 2, .consume, .endQ, .push 9, .consume, .consume, .consume] false := by
  have h := asyncPushQueue_fifo_and_termination
    [QueueOp.push 1, .push 2, .consume, .endQ, .push 9, .consume, .consume, .consume] 7
  exact ⟨h.1 (by decide), (h.2.2 (by decide)).2.2⟩

set_option maxRecDepth 4000 in
/-- One `onActivity` append is the capped-append of the source: in closed
form, a fold of appends keeps exactly the last 200 entries. -/
theorem appendActivity_foldl (es : List ActivityLogEntry) :
    ∀ log : List ActivityLogEntry, log.length ≤ 200 →
      es.foldl appendActivity log = (log ++ es).drop ((log ++ es).length - 200) := by
  induction es with
  | nil =>
    intro log h
    simp [Nat.sub_eq_zero_of_le h]
  | cons e es ih =>
    intro log h
    have hstep : appendActivity log e = (log ++ [e]).drop ((log ++ [e]).length - 200) := by
      rw [appendActivity]
      split
      · rfl
      · next h2 =>
        have h0 : (log ++ [e]).length - 200 = 0 := by
          simp only [List.length_append, List.length_singleton] at h2 ⊢
          omega
        rw [h0, List.drop_zero]
    have hlen : (appendActivity log e).length ≤ 200 := by
      rw [hstep]
      simp only [List.length_drop]
      omega
    rw [List.foldl_cons, ih _ hlen, hstep]
    have hd : (log ++ [e]).length - 200 ≤ (log ++ [e]).length := Nat.sub_le _ _
    rw [← List.drop_append_of_le_length hd, List.drop_drop]
    have hx : log ++ e :: es = (log ++ [e]) ++ es := by simp
    rw [hx]
    congr 1
    simp only [List.length_append, List.length_drop, List.length_cons, List.length_singleton]
    omega

/-- C9: the activity log produced by folding `appendActivity` (the shared
logic of both `onActivity` handlers) never exceeds 200 entries and always
consists of exactly the most recent 200 appends; after a 201st distinct
entry, the oldest entry is gone and the newest is present. -/
theorem activityLog_capped (es : List ActivityLogEntry) :
    es.foldl appendActivity [] = es.drop (es.length - 200)
    ∧ (es.foldl appendActivity []).length ≤ 200
    ∧ (es.length = 201 → es.Nodup →
        (∀ a ∈ es.take 1, a ∉ es.foldl appendActivity [])
          ∧ ∀ b ∈ es.drop 200, b ∈ es.foldl appendActivity []) := by
  have hmain : es.foldl appendActivity [] = es.drop (es.length - 200) := by
    have h := appendActivity_foldl es [] (by simp)
    simpa only [List.nil_append] using h
  refine ⟨hmain, ?_, ?_⟩
  · rw [hmain]
    simp only [List.length_drop]
    omega
  · intro hlen hnd
    have h1 : (201 : Nat) - 200 = 1 := by omega
    rw [hmain, hlen, h1]
    constructor
    · intro a ha
      cases es with
      | nil => simp at hlen
      | cons x t =>
        have hax : a = x := by simpa using ha
        subst hax
        have hdrop : List.drop 1 (a :: t) = t := by simp
        rw [hdrop]
        exact (List.nodup_cons.mp hnd).1
    · intro b hb
      have hdd : es.drop 200 = (es.drop 1).drop 199 := by
        rw [List.drop_drop]
      rw [hdd] at hb
      exact List.drop_subset _ _ hb

/-- Witness for C9 at 201 concrete distinct entries: the fold keeps the last
200, the first entry is evicted and the 201st is present. -/
theorem activityLog_capped_witness :
    ((List.range 201).map (fun i => ActivityLogEntry.mk i none "" "")).foldl appendActivity []
      = ((List.range 201).map (fun i => ActivityLogEntry.mk i none "" "")).drop 1
    ∧ ActivityLogEntry.mk 0 none "" ""
        ∉ ((List.range 201).map (fun i => ActivityLogEntry.mk i none "" "")).foldl appendActivity []
    ∧ ActivityLogEntry.mk 200 none "" ""
        ∈ ((List.range 201).map (fun i => ActivityLogEntry.mk i none "" "")).foldl appendActivity [] := by
  have hlen : ((List.range 201).map (fun i => ActivityLogEntry.mk i none "" "")).length = 201 := by
    simp
  have hnd : ((List.range 201).map (fun i => ActivityLogEntry.mk i none "" "")).Nodup := by
    refine List.Nodup.map ?_ (List.nodup_range 201)
    intro a b hab
    exact congrArg ActivityLogEntry.id hab
  have h := activityLog_capped ((List.range 201).map (fun i => ActivityLogEntry.mk i none "" ""))
  refine ⟨?_, ?_, ?_⟩
  · have h1 := h.1
    rw [hlen] at h1
    norm_num at h1
    exact h1
  · exact (h.2.2 hlen hnd).1 (ActivityLogEntry.mk 0 none "" "") (by decide)
  · exact (h.2.2 hlen hnd).2 (ActivityLogEntry.mk 200 none "" "") (by decide)

/-- C1 counterexample: with a supervising coordinator running, a worker
question (id 3) is answered successfully by `submitAnswer` and then a
second time by the `answer_worker_question` tool — two answer-submission
calls return success for the same question identity, refuting the claim
that at most one of them can. -/
theorem answer_submission_double_success :
    answerTrueCount (runOpsAnn initialWorld [Op.sendDirective "d",
        Op.startAgent "p" "/p" "t" [EngineEvent.ask], Op.engineStep 1,
        Op.submitAnswer 3, Op.answerWorkerQuestion 3]).2 3 = 2
    ∧ ¬ (answerTrueCount (runOpsAnn initialWorld [Op.sendDirective "d",
        Op.startAgent "p" "/p" "t" [EngineEvent.ask], Op.engineStep 1,
        Op.submitAnswer 3, Op.answerWorkerQuestion 3]).2 3 ≤ 1) := by
  decide

/-- C2 counterexample: the snapshot `startAgent` returns has status
`working`, not `starting` — the synchronous prefix of `start()` has
already run when `getInfo()` is taken. -/
theorem startAgent_snapshot_not_starting :
    startedInfos (runOpsAnn initialWorld [Op.startAgent "p" "/p" "t" []]).2
      = [{ id := 0, projectName := "p", projectPath := "/p", prompt := "t",
           status := AgentStatus.working }]
    ∧ ¬ (∀ i ∈ startedInfos (runOpsAnn initialWorld [Op.startAgent "p" "/p" "t" []]).2,
          i.status = AgentStatus.starting) := by
  decide

/-- C3: evaluation at the failing input.  A session whose engine raises a
question and then crashes reaches the terminal status `errored`; a later
`submitAnswer` for the still-registered question succeeds and drives the
status back to `working` — the terminal state is exited, refuting the
claim that `completed`/`errored`/`stopped` are never left.  (The
`waiting_for_input` part of the history also shows `working` interleaved
as claimed.) -/
theorem errored_session_resumes_on_stale_answer :
    ((runOpsAnn initialWorld [Op.startAgent "p" "/p" "t" [EngineEvent.ask, EngineEvent.crash "boom"],
        Op.engineStep 0, Op.engineStep 0, Op.submitAnswer 2]).1.sessions.map
        (fun s => s.statusHistory))
      = [[AgentStatus.starting, AgentStatus.working, AgentStatus.waiting_for_input,
          AgentStatus.errored, AgentStatus.working]]
    ∧ ((runOpsAnn initialWorld [Op.startAgent "p" "/p" "t" [EngineEvent.ask, EngineEvent.crash "boom"],
        Op.engineStep 0, Op.engineStep 0, Op.submitAnswer 2]).2.map (fun p => p.2))
      = [OpResult.info ⟨0, "p", "/p", "t", AgentStatus.working⟩,
         OpResult.unit, OpResult.unit, OpResult.bool true] := by
  decide

/-- C5: evaluation at the failing input (the session's `stop` is modelled
from the spec, which forces status `stopped`).  After `stopAgent`
succeeds, the coordinator agent's `answer_worker_question` — whose
resolver map is not purged by `stopAgent` — still succeeds for the
stopped session's question and drives the status from `stopped` back to
`working`, refuting the claim that `stopped` is terminal. -/
theorem stopped_session_resumes_on_coordinator_answer :
    ((runOpsAnn initialWorld [Op.sendDirective "d", Op.startAgent "p" "/p" "t" [EngineEvent.ask],
        Op.engineStep 1, Op.stopAgent 1, Op.answerWorkerQuestion 3]).1.sessions.map
        (fun s => s.statusHistory))
      = [[AgentStatus.starting, AgentStatus.working, AgentStatus.waiting_for_input,
          AgentStatus.stopped, AgentStatus.working]]
    ∧ ((runOpsAnn initialWorld [Op.sendDirective "d", Op.startAgent "p" "/p" "t" [EngineEvent.ask],
        Op.engineStep 1, Op.stopAgent 1, Op.answerWorkerQuestion 3]).2.map (fun p => p.2))
      = [OpResult.unit,
         OpResult.info ⟨1, "p", "/p", "t", AgentStatus.working⟩,
         OpResult.unit, OpResult.bool true, OpResult.bool true] := by
  decide

/-- C4: `stopAgent` on a registered session returns `true`, removes exactly
the pending questions and escalations owned by that session, and emits
exactly one removal event per removed record (its broadcasts are the
status update followed by one `question_removed` per removed question and
one `escalation_removed` per removed escalation); on an unknown identity
it returns `false` and changes nothing. -/
theorem stopAgent_spec (w : World) (sid : Nat) :
    ((findSession w sid).isSome = true →
      (stopAgent sid w).1 = true
      ∧ (stopAgent sid w).2.pendingQuestions
          = w.pendingQuestions.filter (fun q => q.agentId != sid)
      ∧ (stopAgent sid w).2.pendingEscalations
          = w.pendingEscalations.filter (fun e => e.agentId != sid)
      ∧ (stopAgent sid w).2.broadcasts
          = w.broadcasts ++ [ServerMessage.agent_update sid AgentStatus.stopped]
            ++ (w.pendingQuestions.filter (fun q => q.agentId == sid)).map
                (fun q => ServerMessage.question_removed q.id)
            ++ (w.pendingEscalations.filter (fun e => e.agentId == sid)).map
                (fun e => ServerMessage.escalation_removed e.id))
    ∧ (findSession w sid = none → stopAgent sid w = (false, w)) := by
  constructor
  · intro h
    obtain ⟨s, heq⟩ := Option.isSome_iff_exists.mp h
    simp [stopAgent, heq, sessionStop, setStatusW, updateSession, broadcastW, List.append_assoc]
  · intro h
    simp [stopAgent, h]

/-- Witness for C4: stopping the session that owns pending question 3 and
its escalation returns `true` and leaves both maps empty. -/
theorem stopAgent_spec_witness :
    (stopAgent 1 (runOpsAnn initialWorld [Op.sendDirective "d",
        Op.startAgent "p" "/p" "t" [EngineEvent.ask], Op.engineStep 1,
        Op.escalateToHuman 3 "r"]).1).1 = true
    ∧ (stopAgent 1 (runOpsAnn initialWorld [Op.sendDirective "d",
        Op.startAgent "p" "/p" "t" [EngineEvent.ask], Op.engineStep 1,
        Op.escalateToHuman 3 "r"]).1).2.pendingQuestions = []
    ∧ (stopAgent 1 (runOpsAnn initialWorld [Op.sendDirective "d",
        Op.startAgent "p" "/p" "t" [EngineEvent.ask], Op.engineStep 1,
        Op.escalateToHuman 3 "r"]).1).2.pendingEscalations = [] := by
  refine ⟨((stopAgent_spec (runOpsAnn initialWorld [Op.sendDirective "d",
      Op.startAgent "p" "/p" "t" [EngineEvent.ask], Op.engineStep 1,
      Op.escalateToHuman 3 "r"]).1 1).1 (by decide)).1, by decide, by decide⟩

/-- C10: a directive sent while the coordinator agent is running but before
its engine has assigned a session identifier is appended to the chat
history as a human message (and broadcast), but the agent instance —
including its continuous input queue — is left unchanged: the directive
never reaches the engine and no error is reported. -/
theorem sendDirective_dropped_before_session_assignment
    (w : World) (ca : CoordinatorAgent) (text : String)
    (hca : w.coordAgent = some ca) (hrun : ca.running = true) (hsid : ca.sessionId = none) :
    (sendDirective text w).chatHistory
        = w.chatHistory ++ [{ id := w.nextId, role := ChatRole.human, text := text }]
    ∧ (sendDirective text w).coordAgent = w.coordAgent
    ∧ (sendDirective text w).coordinatorStatus = w.coordinatorStatus
    ∧ (sendDirective text w).broadcasts
        = w.broadcasts ++ [ServerMessage.chat_message w.nextId] := by
  simp [sendDirective, caSendDirective, freshId, hca, hrun, hsid, broadcastW]

/-- Witness for C10: the very first directive auto-starts the coordinator;
before any session id is assigned, a second directive is recorded in chat
but the input queue stays empty. -/
theorem sendDirective_dropped_before_session_assignment_witness :
    (sendDirective "b" (runOpsAnn initialWorld [Op.sendDirective "a"]).1).chatHistory
        = (runOpsAnn initialWorld [Op.sendDirective "a"]).1.chatHistory
          ++ [{ id := 1, role := ChatRole.human, text := "b" }]
    ∧ (sendDirective "b" (runOpsAnn initialWorld [Op.sendDirective "a"]).1).coordAgent
        = (runOpsAnn initialWorld [Op.sendDirective "a"]).1.coordAgent := by
  have h := sendDirective_dropped_before_session_assignment
    (runOpsAnn initialWorld [Op.sendDirective "a"]).1
    ⟨true, none, [], ⟨[], false⟩⟩ "b" (by decide) (by decide) (by decide)
  exact ⟨h.1, h.2.1⟩

/-- Looking a session up yields a stored session with the looked-up id. -/
theorem findSession_mem {w : World} {sid : Nat} {s : Session}
    (h : findSession w sid = some s) : s ∈ w.sessions ∧ s.id = sid := by
  unfold findSession at h
  refine ⟨List.mem_of_find?_eq_some h, ?_⟩
  have := List.find?_some h
  simpa using this

@[simp] theorem broadcastW_sessions (w : World) (m : ServerMessage) :
    (broadcastW w m).sessions = w.sessions := rfl

@[simp] theorem broadcastW_pendingQuestions (w : World) (m : ServerMessage) :
    (broadcastW w m).pendingQuestions = w.pendingQuestions := rfl

@[simp] theorem broadcastW_pendingEscalations (w : World) (m : ServerMessage) :
    (broadcastW w m).pendingEscalations = w.pendingEscalations := rfl

@[simp] theorem broadcastW_coordAgent (w : World) (m : ServerMessage) :
    (broadcastW w m).coordAgent = w.coordAgent := rfl

@[simp] theorem broadcastW_nextId (w : World) (m : ServerMessage) :
    (broadcastW w m).nextId = w.nextId := rfl

@[simp] theorem broadcastW_chatHistory (w : World) (m : ServerMessage) :
    (broadcastW w m).chatHistory = w.chatHistory := rfl

@[simp] theorem broadcastW_broadcasts (w : World) (m : ServerMessage) :
    (broadcastW w m).broadcasts = w.broadcasts ++ [m] := rfl

@[simp] theorem updateSession_pendingQuestions (w : World) (sid : Nat) (f : Session → Session) :
    (updateSession w sid f).pendingQuestions = w.pendingQuestions := rfl

@[simp] theorem updateSession_pendingEscalations (w : World) (sid : Nat) (f : Session → Session) :
    (updateSession w sid f).pendingEscalations = w.pendingEscalations := rfl

@[simp] theorem updateSession_coordAgent (w : World) (sid : Nat) (f : Session → Session) :
    (updateSession w sid f).coordAgent = w.coordAgent := rfl

@[simp] theorem updateSession_nextId (w : World) (sid : Nat) (f : Session → Session) :
    (updateSession w sid f).nextId = w.nextId := rfl

@[simp] theorem updateSession_broadcasts (w : World) (sid : Nat) (f : Session → Session) :
    (updateSession w sid f).broadcasts = w.broadcasts := rfl

@[simp] theorem updateSession_chatHistory (w : World) (sid : Nat) (f : Session → Session) :
    (updateSession w sid f).chatHistory = w.chatHistory := rfl

theorem updateSession_sessions (w : World) (sid : Nat) (f : Session → Session) :
    (updateSession w sid f).sessions
      = w.sessions.map (fun s => if s.id == sid then f s else s) := rfl

@[simp] theorem onActivityW_sessions (w : World) (aid : Option Nat) (pn ms : String) :
    (onActivityW w aid pn ms).sessions = w.sessions := rfl

@[simp] theorem onActivityW_pendingQuestions (w : World) (aid : Option Nat) (pn ms : String) :
    (onActivityW w aid pn ms).pendingQuestions = w.pendingQuestions := rfl

@[simp] theorem onActivityW_pendingEscalations (w : World) (aid : Option Nat) (pn ms : String) :
    (onActivityW w aid pn ms).pendingEscalations = w.pendingEscalations := rfl

@[simp] theorem onActivityW_coordAgent (w : World) (aid : Option Nat) (pn ms : String) :
    (onActivityW w aid pn ms).coordAgent = w.coordAgent := rfl

@[simp] theorem onActivityW_nextId (w : World) (aid : Option Nat) (pn ms : String) :
    (onActivityW w aid pn ms).nextId = w.nextId + 1 := rfl

@[simp] theorem onActivityW_chatHistory (w : World) (aid : Option Nat) (pn ms : String) :
    (onActivityW w aid pn ms).chatHistory = w.chatHistory := rfl

@[simp] theorem onActivityW_broadcasts (w : World) (aid : Option Nat) (pn ms : String) :
    (onActivityW w aid pn ms).broadcasts
      = w.broadcasts ++ [ServerMessage.activity w.nextId] := rfl

@[simp] theorem setStatusW_pendingQuestions (w : World) (sid : Nat) (st : AgentStatus) :
    (setStatusW w sid st).pendingQuestions = w.pendingQuestions := rfl

@[simp] theorem setStatusW_pendingEscalations (w : World) (sid : Nat) (st : AgentStatus) :
    (setStatusW w sid st).pendingEscalations = w.pendingEscalations := rfl

@[simp] theorem setStatusW_coordAgent (w : World) (sid : Nat) (st : AgentStatus) :
    (setStatusW w sid st).coordAgent = w.coordAgent := rfl

@[simp] theorem setStatusW_nextId (w : World) (sid : Nat) (st : AgentStatus) :
    (setStatusW w sid st).nextId = w.nextId := rfl

@[simp] theorem setStatusW_chatHistory (w : World) (sid : Nat) (st : AgentStatus) :
    (setStatusW w sid st).chatHistory = w.chatHistory := rfl

theorem setStatusW_sessions (w : World) (sid : Nat) (st : AgentStatus) :
    (setStatusW w sid st).sessions
      = w.sessions.map (fun s => if s.id == sid then
          { s with status := st, statusHistory := s.statusHistory ++ [st] } else s) := rfl

theorem setStatusW_broadcasts (w : World) (sid : Nat) (st : AgentStatus) :
    (setStatusW w sid st).broadcasts
      = w.broadcasts ++ [ServerMessage.agent_update sid st] := rfl

/-- The element `Map.set` stores is a member of the updated map. -/
theorem setQuestion_mem (q : PendingQuestion) (l : List PendingQuestion) :
    q ∈ setQuestion q l := by
  unfold setQuestion
  split
  · next h =>
    obtain ⟨x, hx, hxq⟩ := List.any_eq_true.mp h
    exact List.mem_map.mpr ⟨x, hx, by simp [hxq]⟩
  · exact List.mem_append_right _ (List.mem_singleton.mpr rfl)

/-- The key just registered is a member of the resolver key set. -/
theorem setResolver_mem (qid : Nat) (l : List Nat) : qid ∈ setResolver qid l := by
  unfold setResolver
  split
  · next h => exact h
  · exact List.mem_append_right _ (List.mem_singleton.mpr rfl)

/-- Replacing the value stored under a present key makes lookup find the new
pair. -/
theorem find?_map_replace (qid sid : Nat) :
    ∀ l : List (Nat × Nat), l.any (fun p => p.1 == qid) = true →
      ((l.map (fun p => if p.1 == qid then (qid, sid) else p)).find? (fun p => p.1 == qid))
        = some (qid, sid) := by
  intro l
  induction l with
  | nil => intro h; simp at h
  | cons x t ih =>
    intro h
    by_cases hx : x.1 = qid
    · have hx' : (x.1 == qid) = true := by simpa using hx
      rw [List.map_cons, if_pos hx']
      exact List.find?_cons_of_pos _ (by simp)
    · have hx' : (x.1 == qid) = false := by simpa using hx
      rw [List.map_cons, if_neg (by simp [hx])]
      rw [List.find?_cons_of_neg _ (by simp [hx])]
      apply ih
      rcases List.any_eq_true.mp h with ⟨y, hy, hyq⟩
      rcases List.mem_cons.mp hy with rfl | hyt
      · exact absurd (by simpa using hyq) hx
      · exact List.any_eq_true.mpr ⟨y, hyt, hyq⟩

/-- Appending a fresh key makes lookup find the appended pair. -/
theorem find?_append_key (qid sid : Nat) :
    ∀ l : List (Nat × Nat), (∀ p ∈ l, p.1 ≠ qid) →
      ((l ++ [(qid, sid)]).find? (fun p => p.1 == qid)) = some (qid, sid) := by
  intro l
  induction l with
  | nil => intro _; simp
  | cons x t ih =>
    intro hall
    rw [List.cons_append, List.find?_cons_of_neg _ (by simp [hall x (by simp)])]
    exact ih (fun p hp => hall p (by simp [hp]))

/-- After `Map.set` of a worker resolver, looking the key up finds exactly
the stored pair. -/
theorem setWorkerResolver_find (qid sid : Nat) (l : List (Nat × Nat)) :
    (setWorkerResolver qid sid l).find? (fun p => p.1 == qid) = some (qid, sid) := by
  unfold setWorkerResolver
  split
  · next h => exact find?_map_replace qid sid l h
  · next h =>
    refine find?_append_key qid sid l ?_
    intro p hp hc
    exact h (List.any_eq_true.mpr ⟨p, hp, by simpa using hc⟩)

@[simp] theorem freshId_fst (w : World) : (freshId w).1 = w.nextId := rfl

@[simp] theorem freshId_sessions (w : World) : (freshId w).2.sessions = w.sessions := rfl

@[simp] theorem freshId_pendingQuestions (w : World) :
    (freshId w).2.pendingQuestions = w.pendingQuestions := rfl

@[simp] theorem freshId_pendingEscalations (w : World) :
    (freshId w).2.pendingEscalations = w.pendingEscalations := rfl

@[simp] theorem freshId_coordAgent (w : World) : (freshId w).2.coordAgent = w.coordAgent := rfl

@[simp] theorem freshId_broadcasts (w : World) : (freshId w).2.broadcasts = w.broadcasts := rfl

@[simp] theorem freshId_chatHistory (w : World) : (freshId w).2.chatHistory = w.chatHistory := rfl

@[simp] theorem freshId_nextId (w : World) : (freshId w).2.nextId = w.nextId + 1 := rfl

@[simp] theorem findSession_freshId (w : World) (sid : Nat) :
    findSession (freshId w).2 sid = findSession w sid := rfl

@[simp] theorem findSession_broadcastW (w : World) (m : ServerMessage) (sid : Nat) :
    findSession (broadcastW w m) sid = findSession w sid := rfl

@[simp] theorem findSession_onActivityW (w : World) (aid : Option Nat) (pn ms : String) (sid : Nat) :
    findSession (onActivityW w aid pn ms) sid = findSession w sid := rfl

/-- `onQuestion` always records the question in the pending map. -/
theorem onQuestion_pendingQuestions (q : PendingQuestion) (sid : Nat) (w : World) :
    (onQuestion q sid w).pendingQuestions = setQuestion q w.pendingQuestions := by
  unfold onQuestion
  cases hca : w.coordAgent with
  | none => simp [hca]
  | some ca =>
    by_cases hr : ca.running = true
    · simp [hca, hr]
    · simp [hca, hr]

/-- `onQuestion` always broadcasts `question_added`. -/
theorem onQuestion_broadcasts (q : PendingQuestion) (sid : Nat) (w : World) :
    (onQuestion q sid w).broadcasts = w.broadcasts ++ [ServerMessage.question_added q.id] := by
  unfold onQuestion
  cases hca : w.coordAgent with
  | none => simp [hca]
  | some ca =>
    by_cases hr : ca.running = true
    · simp [hca, hr]
    · simp [hca, hr]

/-- `onQuestion` does not touch the sessions. -/
theorem onQuestion_sessions (q : PendingQuestion) (sid : Nat) (w : World) :
    (onQuestion q sid w).sessions = w.sessions := by
  unfold onQuestion
  cases hca : w.coordAgent with
  | none => simp [hca]
  | some ca =>
    by_cases hr : ca.running = true
    · simp [hca, hr]
    · simp [hca, hr]

/-- `onQuestion` does not touch the escalations. -/
theorem onQuestion_pendingEscalations (q : PendingQuestion) (sid : Nat) (w : World) :
    (onQuestion q sid w).pendingEscalations = w.pendingEscalations := by
  unfold onQuestion
  cases hca : w.coordAgent with
  | none => simp [hca]
  | some ca =>
    by_cases hr : ca.running = true
    · simp [hca, hr]
    · simp [hca, hr]

/-- `onQuestion` does not allocate identifiers. -/
theorem onQuestion_nextId (q : PendingQuestion) (sid : Nat) (w : World) :
    (onQuestion q sid w).nextId = w.nextId := by
  unfold onQuestion
  cases hca : w.coordAgent with
  | none => simp [hca]
  | some ca =>
    by_cases hr : ca.running = true
    · simp [hca, hr]
    · simp [hca, hr]

/-- With no running coordinator agent, `onQuestion` leaves the instance (and
so its input queue and resolver map) unchanged: direct mode. -/
theorem onQuestion_coordAgent_direct (q : PendingQuestion) (sid : Nat) (w : World)
    (h : coordRunning w = false) : (onQuestion q sid w).coordAgent = w.coordAgent := by
  unfold onQuestion
  cases hca : w.coordAgent with
  | none => simp [hca]
  | some ca =>
    have hr : ca.running = false := by
      unfold coordRunning at h
      rw [hca] at h
      exact h
    simp [hca, hr]

/-- With a running coordinator agent, `onQuestion` routes the question to it:
the resolver is stored and the notification is pushed. -/
theorem onQuestion_coordAgent_running (q : PendingQuestion) (sid : Nat) (w : World)
    (ca : CoordinatorAgent) (hca : w.coordAgent = some ca) (hr : ca.running = true) :
    (onQuestion q sid w).coordAgent = some (notifyWorkerQuestion q.id sid ca) := by
  unfold onQuestion
  simp [hca, hr]

/-- `coordRunning` only looks at the stored instance. -/
theorem coordRunning_congr {w w' : World} (h : w'.coordAgent = w.coordAgent) :
    coordRunning w' = coordRunning w := by
  unfold coordRunning
  rw [h]

@[simp] theorem pushInput_workerResolvers (m : InputMsg) (ca : CoordinatorAgent) :
    (pushInput m ca).workerResolvers = ca.workerResolvers := rfl

@[simp] theorem pushInput_running (m : InputMsg) (ca : CoordinatorAgent) :
    (pushInput m ca).running = ca.running := rfl

@[simp] theorem pushInput_sessionId (m : InputMsg) (ca : CoordinatorAgent) :
    (pushInput m ca).sessionId = ca.sessionId := rfl

theorem notifyWorkerQuestion_workerResolvers (qid sid : Nat) (ca : CoordinatorAgent) :
    (notifyWorkerQuestion qid sid ca).workerResolvers
      = setWorkerResolver qid sid ca.workerResolvers := rfl

theorem notifyWorkerQuestion_inputQueue (qid sid : Nat) (ca : CoordinatorAgent) :
    (notifyWorkerQuestion qid sid ca).inputQueue
      = ca.inputQueue.push (InputMsg.workerQuestion qid) := rfl

/-- The `answer_worker_question` tool reports success whenever a worker
resolver is stored under the requested question id. -/
theorem answer_worker_question_true {w : World} {ca : CoordinatorAgent} {qid sid : Nat}
    (hca : w.coordAgent = some ca)
    (hfind : ca.workerResolvers.find? (fun p => p.1 == qid) = some (qid, sid)) :
    (answer_worker_question qid w).1 = true := by
  unfold answer_worker_question
  rw [hca]
  simp [hfind]

/-- C6: delivering an `AskUserQuestion` interception.  In both modes the
question is recorded in the pending set and `question_added` is broadcast.
When no coordinator agent is running (direct mode) the agent instance —
hence its input channel and resolver map — is untouched.  When a
coordinator agent is running, the notification is pushed onto its
Continuous Input Channel (in push order), the worker resolver is stored
under the question id, and the question can then be resolved without a
human answer: the agent's own `answer_worker_question` tool call on it
succeeds. -/
theorem worker_question_routing (w : World) (sid : Nat) (s : Session) (rest : List EngineEvent)
    (hs : findSession w sid = some s) (hexec : s.exec = .running (.ask :: rest)) :
    PendingQuestion.mk w.nextId sid s.projectName ∈ (engineStep sid w).pendingQuestions
    ∧ ServerMessage.question_added w.nextId ∈ (engineStep sid w).broadcasts
    ∧ (coordRunning w = false → (engineStep sid w).coordAgent = w.coordAgent)
    ∧ (∀ ca, w.coordAgent = some ca → ca.running = true →
        ∃ ca', (engineStep sid w).coordAgent = some ca'
          ∧ ca'.inputQueue = ca.inputQueue.push (InputMsg.workerQuestion w.nextId)
          ∧ ca'.workerResolvers = setWorkerResolver w.nextId sid ca.workerResolvers
          ∧ (ca.inputQueue.done = false →
              ca'.inputQueue.queue = ca.inputQueue.queue ++ [InputMsg.workerQuestion w.nextId])
          ∧ (answer_worker_question w.nextId (engineStep sid w)).1 = true) := by
  have hred : engineStep sid w = handleAskUserQuestion sid rest w := by
    simp [engineStep, hs, hexec]
  rw [hred]
  unfold handleAskUserQuestion
  simp only [freshId_fst, findSession_freshId, hs, Option.map_some', Option.getD_some]
  refine ⟨?_, ?_, ?_, ?_⟩
  · rw [updateSession_pendingQuestions, onActivityW_pendingQuestions,
      onQuestion_pendingQuestions, setStatusW_pendingQuestions, freshId_pendingQuestions]
    exact setQuestion_mem _ _
  · rw [updateSession_broadcasts, onActivityW_broadcasts, onQuestion_broadcasts]
    simp
  · intro h
    rw [updateSession_coordAgent, onActivityW_coordAgent, onQuestion_coordAgent_direct]
    · simp
    · rw [coordRunning_congr (by simp : (setStatusW (freshId w).2 sid AgentStatus.waiting_for_input).coordAgent = w.coordAgent)]
      exact h
  · intro ca hca hr
    have hcoord : (updateSession
        (onActivityW (onQuestion (PendingQuestion.mk w.nextId sid s.projectName) sid
          (setStatusW (freshId w).2 sid AgentStatus.waiting_for_input)) (some sid) s.projectName
          "Waiting for input") sid
        (fun s' => { s' with
          pendingResolvers := setResolver w.nextId s'.pendingResolvers,
          exec := SessionExec.awaitingAnswer w.nextId rest })).coordAgent
        = some (notifyWorkerQuestion w.nextId sid ca) := by
      rw [updateSession_coordAgent, onActivityW_coordAgent]
      exact onQuestion_coordAgent_running _ sid _ ca (by simp [hca]) hr
    refine ⟨notifyWorkerQuestion w.nextId sid ca, hcoord, rfl, rfl, ?_, ?_⟩
    · intro hdone
      simp [notifyWorkerQuestion, pushInput, AsyncPushQueue.push, hdone]
    · have hfind : (notifyWorkerQuestion w.nextId sid ca).workerResolvers.find?
          (fun p => p.1 == w.nextId) = some (w.nextId, sid) := by
        rw [notifyWorkerQuestion_workerResolvers]
        exact setWorkerResolver_find _ _ _
      exact answer_worker_question_true hcoord hfind

/-- Witness for C6: in direct mode (no coordinator) the question lands in the
pending set and the agent instance stays absent; in supervised mode the
coordinator agent can immediately answer it with its tool. -/
theorem worker_question_routing_witness :
    PendingQuestion.mk 2 0 "p" ∈ (engineStep 0 (runOpsAnn initialWorld
        [Op.startAgent "p" "/p" "t" [EngineEvent.ask]]).1).pendingQuestions
    ∧ (engineStep 0 (runOpsAnn initialWorld
        [Op.startAgent "p" "/p" "t" [EngineEvent.ask]]).1).coordAgent = none
    ∧ (answer_worker_question 3 (engineStep 1 (runOpsAnn initialWorld
        [Op.sendDirective "d", Op.startAgent "p" "/p" "t" [EngineEvent.ask]]).1)).1 = true := by
  have h1 := worker_question_routing (runOpsAnn initialWorld
      [Op.startAgent "p" "/p" "t" [EngineEvent.ask]]).1 0
      ⟨0, "p", "/p", "t", AgentStatus.working, [AgentStatus.starting, AgentStatus.working],
        [], SessionExec.running [EngineEvent.ask], none, false⟩ []
      (by decide) (by decide)
  have h2 := worker_question_routing (runOpsAnn initialWorld
      [Op.sendDirective "d", Op.startAgent "p" "/p" "t" [EngineEvent.ask]]).1 1
      ⟨1, "p", "/p", "t", AgentStatus.working, [AgentStatus.starting, AgentStatus.working],
        [], SessionExec.running [EngineEvent.ask], none, false⟩ []
      (by decide) (by decide)
  refine ⟨h1.1, ?_, ?_⟩
  · have h3 := h1.2.2.1 (by decide)
    exact h3.trans (by decide)
  · obtain ⟨ca', hca', hq, hwr, hpush, htool⟩ :=
      h2.2.2.2 ⟨true, none, [], ⟨[], false⟩⟩ (by decide) (by decide)
    exact htool

/-- The bookkeeping in `questionResumed` removes exactly the resolved
question from the pending-question map. -/
theorem questionResumed_pendingQuestions (sid qid : Nat) (w : World) :
    (questionResumed sid qid w).pendingQuestions
      = w.pendingQuestions.filter (fun q => q.id != qid) := by
  unfold questionResumed
  by_cases hc : (List.any w.pendingEscalations (fun e => e.id == qid)) = true
  · simp [hc]
  · simp [hc]

/-- `questionResumed` never adds escalations. -/
theorem questionResumed_pendingEscalations_subset (sid qid : Nat) (w : World) :
    ∀ e ∈ (questionResumed sid qid w).pendingEscalations, e ∈ w.pendingEscalations := by
  intro e he
  unfold questionResumed at he
  simp only [onActivityW_pendingEscalations, updateSession_pendingEscalations,
    setStatusW_pendingEscalations] at he
  split at he
  · simp only [broadcastW_pendingEscalations] at he
    exact List.mem_of_mem_filter he
  · simpa using he

/-- `questionResumed` does not touch the coordinator agent instance. -/
theorem questionResumed_coordAgent (sid qid : Nat) (w : World) :
    (questionResumed sid qid w).coordAgent = w.coordAgent := by
  unfold questionResumed
  dsimp only
  split
  · rfl
  · rfl

/-- The sessions after `questionResumed`: the status bookkeeping and the
engine-loop resumption, neither of which touches a session's identity or
resolver key set. -/
theorem questionResumed_sessions_eq (sid qid : Nat) (w : World) :
    (questionResumed sid qid w).sessions
      = (w.sessions.map (fun s => if s.id == sid then
            { s with status := AgentStatus.working,
                     statusHistory := s.statusHistory ++ [AgentStatus.working] } else s)).map
          (fun s => if s.id == sid then
            (match s.exec with
             | SessionExec.awaitingAnswer qid' rest =>
                if qid' == qid then { s with exec := SessionExec.running rest } else s
             | _ => s) else s) := by
  unfold questionResumed
  dsimp only
  split
  · rfl
  · rfl

@[simp] theorem mapCoordAgent_sessions (w : World) (f : CoordinatorAgent → CoordinatorAgent) :
    (mapCoordAgent w f).sessions = w.sessions := rfl

@[simp] theorem mapCoordAgent_pendingQuestions (w : World) (f : CoordinatorAgent → CoordinatorAgent) :
    (mapCoordAgent w f).pendingQuestions = w.pendingQuestions := rfl

@[simp] theorem mapCoordAgent_pendingEscalations (w : World) (f : CoordinatorAgent → CoordinatorAgent) :
    (mapCoordAgent w f).pendingEscalations = w.pendingEscalations := rfl

@[simp] theorem mapCoordAgent_nextId (w : World) (f : CoordinatorAgent → CoordinatorAgent) :
    (mapCoordAgent w f).nextId = w.nextId := rfl

@[simp] theorem mapCoordAgent_coordAgent (w : World) (f : CoordinatorAgent → CoordinatorAgent) :
    (mapCoordAgent w f).coordAgent = w.coordAgent.map f := rfl

/-- The status write of `questionResumed` keeps every session's id. -/
theorem statusMap_id (sid : Nat) (z : Session) :
    ((fun s => if s.id == sid then
        { s with status := AgentStatus.working,
                 statusHistory := s.statusHistory ++ [AgentStatus.working] } else s) z).id
      = z.id := by
  dsimp only
  split
  · rfl
  · rfl

/-- The status write of `questionResumed` keeps every session's resolver set. -/
theorem statusMap_resolvers (sid : Nat) (z : Session) :
    ((fun s => if s.id == sid then
        { s with status := AgentStatus.working,
                 statusHistory := s.statusHistory ++ [AgentStatus.working] } else s) z).pendingResolvers
      = z.pendingResolvers := by
  dsimp only
  split
  · rfl
  · rfl

/-- The engine-loop resumption of `questionResumed` keeps every session's id. -/
theorem resumeExec_id (sid qid : Nat) (z : Session) :
    ((fun s => if s.id == sid then
        (match s.exec with
         | SessionExec.awaitingAnswer qid' rest =>
            if qid' == qid then { s with exec := SessionExec.running rest } else s
         | _ => s) else s) z).id = z.id := by
  dsimp only
  split
  · split
    · split
      · rfl
      · rfl
    · rfl
  · rfl

/-- The engine-loop resumption of `questionResumed` keeps every session's
resolver set. -/
theorem resumeExec_resolvers (sid qid : Nat) (z : Session) :
    ((fun s => if s.id == sid then
        (match s.exec with
         | SessionExec.awaitingAnswer qid' rest =>
            if qid' == qid then { s with exec := SessionExec.running rest } else s
         | _ => s) else s) z).pendingResolvers = z.pendingResolvers := by
  dsimp only
  split
  · split
    · split
      · rfl
      · rfl
    · rfl
  · rfl

/-- A present resolver makes `resolveAnswer` succeed, deleting the key from
the promise-bridge map before the resolver is invoked. -/
theorem resolveAnswer_true {w : World} {sid qid : Nat} {s : Session}
    (hs : findSession w sid = some s) (hq : qid ∈ s.pendingResolvers) :
    resolveAnswer sid qid w = (true, updateSession w sid
      (fun s' => { s' with pendingResolvers := s'.pendingResolvers.filter (fun x => x != qid) })) := by
  unfold resolveAnswer
  rw [hs]
  simp [hq]

/-- C7: `submitEscalationAnswer` on a question with no pending escalation
returns `false` and changes nothing; with a pending escalation but no
coordinator agent instance it falls back to `submitAnswer`; and with an
instance holding the stored worker resolver of a live session question it
returns `true`, invokes the stored resolver (the session's promise-bridge
key is consumed), pushes the resolution notice onto the agent's input
queue (notifying its engine), and removes both the escalation and the
underlying pending question. -/
theorem submitEscalationAnswer_spec (w : World) (qid : Nat) :
    (w.pendingEscalations.find? (fun x => x.id == qid) = none →
      submitEscalationAnswer qid w = (false, w))
    ∧ (∀ e, w.pendingEscalations.find? (fun x => x.id == qid) = some e →
        w.coordAgent = none → submitEscalationAnswer qid w = submitAnswer qid w)
    ∧ (∀ e ca sid s, w.pendingEscalations.find? (fun x => x.id == qid) = some e →
        w.coordAgent = some ca →
        ca.workerResolvers.find? (fun p => p.1 == qid) = some (qid, sid) →
        findSession w sid = some s → qid ∈ s.pendingResolvers →
        (submitEscalationAnswer qid w).1 = true
        ∧ (∀ e' ∈ (submitEscalationAnswer qid w).2.pendingEscalations, e'.id ≠ qid)
        ∧ (∀ q' ∈ (submitEscalationAnswer qid w).2.pendingQuestions, q'.id ≠ qid)
        ∧ (∃ ca', (submitEscalationAnswer qid w).2.coordAgent = some ca'
            ∧ (∀ p ∈ ca'.workerResolvers, p.1 ≠ qid)
            ∧ ca'.inputQueue = ca.inputQueue.push (InputMsg.escalationResolved qid))
        ∧ (∀ s' ∈ (submitEscalationAnswer qid w).2.sessions, s'.id = sid →
            qid ∉ s'.pendingResolvers)) := by
  refine ⟨?_, ?_, ?_⟩
  · intro h
    unfold submitEscalationAnswer
    rw [h]
  · intro e hfe hca
    unfold submitEscalationAnswer
    rw [hfe, hca]
  · intro e ca sid s hfe hca hfr hs hqres
    have hs1 : findSession { w with coordAgent := some { ca with workerResolvers := ca.workerResolvers.filter (fun r => r.1 != qid) } } sid = some s := hs
    have hresolve := resolveAnswer_true hs1 hqres
    have hfull : submitEscalationAnswer qid w
        = (true, questionResumed sid qid
            (broadcastW
              { (mapCoordAgent
                  (updateSession { w with coordAgent := some { ca with workerResolvers := ca.workerResolvers.filter (fun r => r.1 != qid) } }
                    sid
                    (fun s' => { s' with pendingResolvers := s'.pendingResolvers.filter (fun x => x != qid) }))
                  (pushInput (InputMsg.escalationResolved qid))) with
                pendingEscalations :=
                  ((mapCoordAgent
                    (updateSession { w with coordAgent := some { ca with workerResolvers := ca.workerResolvers.filter (fun r => r.1 != qid) } }
                      sid
                      (fun s' => { s' with pendingResolvers := s'.pendingResolvers.filter (fun x => x != qid) }))
                    (pushInput (InputMsg.escalationResolved qid))).pendingEscalations.filter
                    (fun x => x.id != qid)) }
              (ServerMessage.escalation_removed qid))) := by
      unfold submitEscalationAnswer
      rw [hfe, hca]
      simp only [hfr]
      rw [hresolve]
      rfl
    rw [hfull]
    dsimp only
    refine ⟨rfl, ?_, ?_, ?_, ?_⟩
    · intro e' he'
      have hsub := questionResumed_pendingEscalations_subset sid qid _ e' he'
      simp only [broadcastW_pendingEscalations, mapCoordAgent_pendingEscalations,
        updateSession_pendingEscalations] at hsub
      have := List.of_mem_filter hsub
      simpa using this
    · intro q' hq'
      rw [questionResumed_pendingQuestions] at hq'
      have := List.of_mem_filter hq'
      simpa using this
    · refine ⟨pushInput (InputMsg.escalationResolved qid) { ca with workerResolvers := ca.workerResolvers.filter (fun r => r.1 != qid) }, ?_, ?_, rfl⟩
      · rw [questionResumed_coordAgent]
        rfl
      · intro p hp
        simp only [pushInput_workerResolvers] at hp
        have := List.of_mem_filter hp
        simpa using this
    · intro s' hmem hid
      rw [questionResumed_sessions_eq] at hmem
      simp only [broadcastW_sessions, mapCoordAgent_sessions, updateSession_sessions] at hmem
      rw [List.mem_map] at hmem
      obtain ⟨y, hy, hys⟩ := hmem
      rw [List.mem_map] at hy
      obtain ⟨z, hz, hzy⟩ := hy
      rw [List.mem_map] at hz
      obtain ⟨x, hx, hxz⟩ := hz
      have hres' : s'.pendingResolvers = z.pendingResolvers := by
        rw [← hys, ← hzy]
        rw [resumeExec_resolvers sid qid, statusMap_resolvers sid]
      have hid' : s'.id = z.id := by
        rw [← hys, ← hzy]
        rw [resumeExec_id sid qid, statusMap_id sid]
      by_cases hxs : (x.id == sid) = true
      · have hz' : z = { x with pendingResolvers := x.pendingResolvers.filter (fun v => v != qid) } := by
          rw [← hxz]
          simp [hxs]
        intro hqin
        rw [hres', hz'] at hqin
        have := List.of_mem_filter hqin
        simp at this
      · have hz' : z = x := by
          rw [← hxz]
          simp [hxs]
        rw [hid, hz'] at hid'
        exact absurd hid'.symm (by simpa using hxs)

/-- Witness for C7: answering the escalated question 3 succeeds and clears
the escalation and the question. -/
theorem submitEscalationAnswer_spec_witness :
    (submitEscalationAnswer 3 (runOpsAnn initialWorld [Op.sendDirective "d",
        Op.startAgent "p" "/p" "t" [EngineEvent.ask], Op.engineStep 1,
        Op.escalateToHuman 3 "r"]).1).1 = true
    ∧ (submitEscalationAnswer 3 (runOpsAnn initialWorld [Op.sendDirective "d",
        Op.startAgent "p" "/p" "t" [EngineEvent.ask], Op.engineStep 1,
        Op.escalateToHuman 3 "r"]).1).2.pendingEscalations = []
    ∧ (submitEscalationAnswer 3 (runOpsAnn initialWorld [Op.sendDirective "d",
        Op.startAgent "p" "/p" "t" [EngineEvent.ask], Op.engineStep 1,
        Op.escalateToHuman 3 "r"]).1).2.pendingQuestions = [] := by
  have h := (submitEscalationAnswer_spec (runOpsAnn initialWorld [Op.sendDirective "d",
      Op.startAgent "p" "/p" "t" [EngineEvent.ask], Op.engineStep 1,
      Op.escalateToHuman 3 "r"]).1 3).2.2
    ⟨3, 1, "p", "r"⟩ ⟨true, none, [(3, 1)], ⟨[InputMsg.workerQuestion 3], false⟩⟩ 1
    ⟨1, "p", "/p", "t", AgentStatus.waiting_for_input,
      [AgentStatus.starting, AgentStatus.working, AgentStatus.waiting_for_input],
      [3], SessionExec.awaitingAnswer 3 [], none, false⟩
    (by decide) (by decide) (by decide) (by decide) (by decide)
  exact ⟨h.1, by decide, by decide⟩

/-- Elements of a `Map.set` question map are old elements or the new one. -/
theorem setQuestion_sub (q : PendingQuestion) (l : List PendingQuestion) :
    ∀ x ∈ setQuestion q l, x ∈ l ∨ x = q := by
  intro x hx
  unfold setQuestion at hx
  split at hx
  · rw [List.mem_map] at hx
    obtain ⟨y, hy, hyx⟩ := hx
    by_cases hyq : (y.id == q.id) = true
    · right
      rw [← hyx]
      simp [hyq]
    · left
      rw [← hyx]
      simpa [hyq] using hy
  · rcases List.mem_append.mp hx with h | h
    · exact Or.inl h
    · exact Or.inr (List.mem_singleton.mp h)

/-- An old question with a different key survives `Map.set`. -/
theorem setQuestion_mem_of_ne (q x : PendingQuestion) (l : List PendingQuestion)
    (hx : x ∈ l) (hne : x.id ≠ q.id) : x ∈ setQuestion q l := by
  unfold setQuestion
  split
  · rw [List.mem_map]
    exact ⟨x, hx, by simp [hne]⟩
  · exact List.mem_append_left _ hx

/-- Elements of a `Map.set` escalation map are old elements or the new one. -/
theorem setEscalation_sub (e : EscalatedQuestion) (l : List EscalatedQuestion) :
    ∀ x ∈ setEscalation e l, x ∈ l ∨ x = e := by
  intro x hx
  unfold setEscalation at hx
  split at hx
  · rw [List.mem_map] at hx
    obtain ⟨y, hy, hyx⟩ := hx
    by_cases hyq : (y.id == e.id) = true
    · right
      rw [← hyx]
      simp [hyq]
    · left
      rw [← hyx]
      simpa [hyq] using hy
  · rcases List.mem_append.mp hx with h | h
    · exact Or.inl h
    · exact Or.inr (List.mem_singleton.mp h)

/-- Elements of a `Map.set` worker-resolver map are old elements or the new
pair. -/
theorem setWorkerResolver_sub (qid sid : Nat) (l : List (Nat × Nat)) :
    ∀ x ∈ setWorkerResolver qid sid l, x ∈ l ∨ x = (qid, sid) := by
  intro x hx
  unfold setWorkerResolver at hx
  split at hx
  · rw [List.mem_map] at hx
    obtain ⟨y, hy, hyx⟩ := hx
    by_cases hyq : (y.1 == qid) = true
    · right
      rw [← hyx]
      simp [hyq]
    · left
      rw [← hyx]
      simpa [hyq] using hy
  · rcases List.mem_append.mp hx with h | h
    · exact Or.inl h
    · exact Or.inr (List.mem_singleton.mp h)

/-- Keys of a resolver key set after `Map.set`: old keys or the new one. -/
theorem setResolver_sub (qid : Nat) (l : List Nat) :
    ∀ x ∈ setResolver qid l, x ∈ l ∨ x = qid := by
  intro x hx
  unfold setResolver at hx
  split at hx
  · exact Or.inl hx
  · rcases List.mem_append.mp hx with h | h
    · exact Or.inl h
    · exact Or.inr (List.mem_singleton.mp h)

/-- Old keys survive `Map.set` on a resolver key set. -/
theorem setResolver_mem_of_mem (qid x : Nat) (l : List Nat) (hx : x ∈ l) :
    x ∈ setResolver qid l := by
  unfold setResolver
  split
  · exact hx
  · exact List.mem_append_left _ hx

/-- `coordResolvers` only looks at the stored instance. -/
theorem coordResolvers_congr {w w' : World} (h : w'.coordAgent = w.coordAgent) :
    coordResolvers w' = coordResolvers w := by
  unfold coordResolvers
  rw [h]

/-- The bookkeeping in `questionResumed` removes exactly the resolved
question's escalation (if any) from the escalation map. -/
theorem questionResumed_pendingEscalations (sid qid : Nat) (w : World) :
    (questionResumed sid qid w).pendingEscalations
      = w.pendingEscalations.filter (fun e => e.id != qid) := by
  unfold questionResumed
  dsimp only
  split
  · rfl
  · next hc =>
    refine (List.filter_eq_self.mpr ?_).symm
    intro e he
    simp only [broadcastW_pendingEscalations] at hc
    by_contra hne
    refine hc ?_
    refine List.any_eq_true.mpr ⟨e, he, ?_⟩
    simpa using hne

/-- With distinct session identities, lookup finds any stored session with
the looked-up id. -/
theorem find?_id_of_nodup {sid : Nat} {x : Session} :
    ∀ l : List Session, (l.map (fun s => s.id)).Nodup → x ∈ l → x.id = sid →
      l.find? (fun s => s.id == sid) = some x := by
  intro l
  induction l with
  | nil => intro _ hx _; simp at hx
  | cons y t ih =>
    intro hnd hx hid
    rw [List.map_cons] at hnd
    rcases List.mem_cons.mp hx with rfl | hxt
    · exact List.find?_cons_of_pos _ (by simp [hid])
    · have hnd' := List.nodup_cons.mp hnd
      have hyne : y.id ≠ sid := by
        intro hy
        have hmem : x.id ∈ t.map (fun s => s.id) := List.mem_map.mpr ⟨x, hxt, rfl⟩
        rw [hid, ← hy] at hmem
        exact hnd'.1 hmem
      rw [List.find?_cons_of_neg _ (by simp [hyne])]
      exact ih hnd'.2 hxt hid

theorem findSession_eq_of_nodup {w : World} {sid : Nat} {x : Session}
    (hnd : (w.sessions.map (fun s => s.id)).Nodup) (hx : x ∈ w.sessions) (hid : x.id = sid) :
    findSession w sid = some x :=
  find?_id_of_nodup w.sessions hnd hx hid

/-- `questionResumed` allocates exactly one identifier (the activity entry). -/
theorem questionResumed_nextId (sid qid : Nat) (w : World) :
    (questionResumed sid qid w).nextId = w.nextId + 1 := by
  unfold questionResumed
  dsimp only
  split
  · rfl
  · rfl

/-- `resolveAnswer` either fails leaving the world unchanged, or succeeds
deleting the resolver key. -/
theorem resolveAnswer_cases (sid qid : Nat) (w : World) :
    resolveAnswer sid qid w = (false, w)
    ∨ resolveAnswer sid qid w = (true, updateSession w sid
        (fun s' => { s' with pendingResolvers := s'.pendingResolvers.filter (fun x => x != qid) })) := by
  unfold resolveAnswer
  split
  · exact Or.inl rfl
  · split
    · exact Or.inr rfl
    · exact Or.inl rfl

/-- Transport of the reachability invariant along a state change that keeps
the question and escalation maps and the worker resolvers, only reshapes
sessions without touching identities or resolver key sets, and does not
decrease the identifier counter. -/
theorem WorldInv.transport {w w' : World} (h : WorldInv w) (g : Session → Session)
    (hg : ∀ s, (g s).id = s.id ∧ (g s).pendingResolvers = s.pendingResolvers)
    (hsess : w'.sessions = w.sessions.map g)
    (hq : w'.pendingQuestions = w.pendingQuestions)
    (he : w'.pendingEscalations = w.pendingEscalations)
    (hr : coordResolvers w' = coordResolvers w)
    (hn : w.nextId ≤ w'.nextId) : WorldInv w' := by
  constructor
  · intro q hq'
    rw [hq] at hq'
    exact lt_of_lt_of_le (h.qFresh q hq') hn
  · intro p hp
    rw [hr] at hp
    exact lt_of_lt_of_le (h.wFresh p hp) hn
  · intro s hs
    rw [hsess] at hs
    obtain ⟨x, hx, hxs⟩ := List.mem_map.mp hs
    rw [← hxs, (hg x).1]
    exact lt_of_lt_of_le (h.sFresh x hx) hn
  · rw [hsess, List.map_map]
    have hco : ((fun s => s.id) ∘ g) = (fun s : Session => s.id) := by
      funext s
      exact (hg s).1
    rw [hco]
    exact h.sNodup
  · intro e he'
    rw [he] at he'
    obtain ⟨q, hqq, hq1, hq2⟩ := h.escQ e he'
    exact ⟨q, by rw [hq]; exact hqq, hq1, hq2⟩
  · intro q hq'
    rw [hq] at hq'
    obtain ⟨x, hx, hx1, hx2⟩ := h.qRes q hq'
    refine ⟨g x, ?_, ?_, ?_⟩
    · rw [hsess]
      exact List.mem_map.mpr ⟨x, hx, rfl⟩
    · rw [(hg x).1]
      exact hx1
    · rw [(hg x).2]
      exact hx2
  · intro p hp q hq'
    rw [hr] at hp
    rw [hq] at hq'
    exact h.wLink p hp q hq'

/-- Transport when sessions are untouched. -/
theorem WorldInv.of_same {w w' : World} (h : WorldInv w)
    (hsess : w'.sessions = w.sessions)
    (hq : w'.pendingQuestions = w.pendingQuestions)
    (he : w'.pendingEscalations = w.pendingEscalations)
    (hr : coordResolvers w' = coordResolvers w)
    (hn : w.nextId ≤ w'.nextId) : WorldInv w' :=
  h.transport id (fun _ => ⟨rfl, rfl⟩) (by rw [hsess, List.map_id]) hq he hr hn

theorem broadcastW_inv {w : World} (m : ServerMessage) (h : WorldInv w) :
    WorldInv (broadcastW w m) :=
  h.of_same rfl rfl rfl (coordResolvers_congr rfl) le_rfl

theorem onActivityW_inv {w : World} (aid : Option Nat) (pn ms : String) (h : WorldInv w) :
    WorldInv (onActivityW w aid pn ms) :=
  h.of_same rfl rfl rfl (coordResolvers_congr rfl) (Nat.le_succ _)

theorem updateSession_inv {w : World} (sid : Nat) (f : Session → Session)
    (hf : ∀ s, (f s).id = s.id ∧ (f s).pendingResolvers = s.pendingResolvers)
    (h : WorldInv w) : WorldInv (updateSession w sid f) := by
  refine h.transport (fun s => if s.id == sid then f s else s) ?_
    (updateSession_sessions w sid f) rfl rfl (coordResolvers_congr rfl) le_rfl
  intro s
  by_cases hs : (s.id == sid) = true
  · simpa [hs] using hf s
  · simp [hs]

theorem setStatusW_inv {w : World} (sid : Nat) (st : AgentStatus) (h : WorldInv w) :
    WorldInv (setStatusW w sid st) :=
  broadcastW_inv _ (updateSession_inv sid _ (fun _ => ⟨rfl, rfl⟩) h)

theorem sessionCompleted_inv {w : World} (sid : Nat) (h : WorldInv w) :
    WorldInv (sessionCompleted sid w) :=
  updateSession_inv sid _ (fun _ => ⟨rfl, rfl⟩)
    (onActivityW_inv _ _ _ (setStatusW_inv sid _ h))

theorem sessionErrored_inv {w : World} (sid : Nat) (m : String) (h : WorldInv w) :
    WorldInv (sessionErrored sid m w) :=
  updateSession_inv sid _ (fun _ => ⟨rfl, rfl⟩)
    (onActivityW_inv _ _ _ (setStatusW_inv sid _
      (updateSession_inv sid _ (fun _ => ⟨rfl, rfl⟩) h)))

/-- Session facts across `questionResumed`: identities (in order) and each
session's resolver key set are unchanged. -/
theorem questionResumed_sessions_facts (sid qid : Nat) (v : World) :
    ((questionResumed sid qid v).sessions.map (fun s => s.id)
        = v.sessions.map (fun s => s.id))
    ∧ (∀ x ∈ v.sessions, ∃ s' ∈ (questionResumed sid qid v).sessions,
        s'.id = x.id ∧ s'.pendingResolvers = x.pendingResolvers) := by
  rw [questionResumed_sessions_eq]
  constructor
  · rw [List.map_map, List.map_map]
    refine List.map_congr_left ?_
    intro z _
    rw [Function.comp_apply, Function.comp_apply]
    rw [resumeExec_id sid qid, statusMap_id sid]
  · intro x hx
    refine ⟨_, List.mem_map.mpr ⟨_, List.mem_map.mpr ⟨x, hx, rfl⟩, rfl⟩, ?_, ?_⟩
    · rw [resumeExec_id sid qid, statusMap_id sid]
    · rw [resumeExec_resolvers sid qid, statusMap_resolvers sid]

/-- The reachability invariant is restored by `questionResumed`: even if the
resolved question's promise-bridge key has just been consumed, the
continuation deletes the question (and its escalation), so the invariant
only needs to be known for the other questions. -/
theorem questionResumed_inv (sid qid : Nat) (v : World)
    (hqF : ∀ q ∈ v.pendingQuestions, q.id < v.nextId)
    (hwF : ∀ p ∈ coordResolvers v, p.1 < v.nextId)
    (hsF : ∀ s ∈ v.sessions, s.id < v.nextId)
    (hsN : (v.sessions.map (fun s => s.id)).Nodup)
    (hesc : ∀ e ∈ v.pendingEscalations, e.id ≠ qid →
      ∃ q ∈ v.pendingQuestions, q.id = e.id ∧ q.agentId = e.agentId)
    (hqR : ∀ q ∈ v.pendingQuestions, q.id ≠ qid →
      ∃ s ∈ v.sessions, s.id = q.agentId ∧ q.id ∈ s.pendingResolvers)
    (hwL : ∀ p ∈ coordResolvers v, ∀ q ∈ v.pendingQuestions, q.id = p.1 → q.agentId = p.2) :
    WorldInv (questionResumed sid qid v) := by
  have hQ := questionResumed_pendingQuestions sid qid v
  have hE := questionResumed_pendingEscalations sid qid v
  have hN := questionResumed_nextId sid qid v
  have hC := coordResolvers_congr (questionResumed_coordAgent sid qid v)
  have hSF := questionResumed_sessions_facts sid qid v
  constructor
  · intro q hq
    rw [hQ] at hq
    rw [hN]
    exact lt_trans (hqF q (List.mem_of_mem_filter hq)) (Nat.lt_succ_self _)
  · intro p hp
    rw [hC] at hp
    rw [hN]
    exact lt_trans (hwF p hp) (Nat.lt_succ_self _)
  · intro s hs
    have hid : s.id ∈ v.sessions.map (fun s => s.id) := by
      rw [← hSF.1]
      exact List.mem_map.mpr ⟨s, hs, rfl⟩
    obtain ⟨x, hx, hxid⟩ := List.mem_map.mp hid
    rw [hN, ← hxid]
    exact lt_trans (hsF x hx) (Nat.lt_succ_self _)
  · rw [hSF.1]
    exact hsN
  · intro e he
    rw [hE] at he
    have hmem := List.mem_of_mem_filter he
    have hne : e.id ≠ qid := by simpa using List.of_mem_filter he
    obtain ⟨q, hqmem, hq1, hq2⟩ := hesc e hmem hne
    refine ⟨q, ?_, hq1, hq2⟩
    rw [hQ]
    refine List.mem_filter.mpr ⟨hqmem, ?_⟩
    simp [hq1, hne]
  · intro q hq
    rw [hQ] at hq
    have hmem := List.mem_of_mem_filter hq
    have hne : q.id ≠ qid := by simpa using List.of_mem_filter hq
    obtain ⟨x, hx, hx1, hx2⟩ := hqR q hmem hne
    obtain ⟨s', hs', hs'1, hs'2⟩ := hSF.2 x hx
    refine ⟨s', hs', ?_, ?_⟩
    · rw [hs'1]
      exact hx1
    · rw [hs'2]
      exact hx2
  · intro p hp q hq
    rw [hC] at hp
    rw [hQ] at hq
    exact hwL p hp q (List.mem_of_mem_filter hq)

/-- Facts about the resolver-consuming session update of `resolveAnswer`:
identities are unchanged and only the consumed key leaves a resolver set. -/
theorem consumeResolver_facts (sid qid : Nat) (w : World) :
    ((updateSession w sid (fun s' => { s' with
        pendingResolvers := s'.pendingResolvers.filter (fun x => x != qid) })).sessions.map
          (fun s => s.id)
        = w.sessions.map (fun s => s.id))
    ∧ (∀ x ∈ w.sessions, ∃ s' ∈ (updateSession w sid (fun s' => { s' with
          pendingResolvers := s'.pendingResolvers.filter (fun x => x != qid) })).sessions,
        s'.id = x.id ∧ ∀ v ∈ x.pendingResolvers, v ≠ qid → v ∈ s'.pendingResolvers) := by
  constructor
  · rw [updateSession_sessions, List.map_map]
    refine List.map_congr_left ?_
    intro z _
    rw [Function.comp_apply]
    by_cases hz : (z.id == sid) = true
    · simp [hz]
    · simp [hz]
  · intro x hx
    rw [updateSession_sessions]
    refine ⟨_, List.mem_map.mpr ⟨x, hx, rfl⟩, ?_, ?_⟩
    · by_cases hz : (x.id == sid) = true
      · simp [hz]
      · simp [hz]
    · intro v hv hne
      by_cases hz : (x.id == sid) = true
      · simp only [hz, if_true]
        exact List.mem_filter.mpr ⟨hv, by simpa using hne⟩
      · simp only [hz, Bool.false_eq_true, if_false]
        exact hv

/-- The full answer resolution preserves the reachability invariant. -/
theorem resolveAnswerFull_inv {w : World} (sid qid : Nat) (h : WorldInv w) :
    WorldInv (resolveAnswerFull sid qid w).2 := by
  unfold resolveAnswerFull
  rcases resolveAnswer_cases sid qid w with hc | hc
  · rw [hc]
    exact h
  · rw [hc]
    have hfacts := consumeResolver_facts sid qid w
    refine questionResumed_inv sid qid _ ?_ ?_ ?_ ?_ ?_ ?_ ?_
    · intro q hq
      exact h.qFresh q hq
    · intro p hp
      exact h.wFresh p (by rwa [coordResolvers_congr (rfl : (updateSession w sid
        (fun s' => { s' with pendingResolvers := s'.pendingResolvers.filter (fun x => x != qid) })).coordAgent = w.coordAgent)] at hp)
    · intro s hs
      have hid : s.id ∈ w.sessions.map (fun s => s.id) := by
        rw [← hfacts.1]
        exact List.mem_map.mpr ⟨s, hs, rfl⟩
      obtain ⟨x, hx, hxid⟩ := List.mem_map.mp hid
      rw [← hxid]
      exact h.sFresh x hx
    · rw [hfacts.1]
      exact h.sNodup
    · intro e he _
      exact h.escQ e he
    · intro q hq hne
      obtain ⟨x, hx, hx1, hx2⟩ := h.qRes q hq
      obtain ⟨s', hs', hs'1, hs'2⟩ := hfacts.2 x hx
      refine ⟨s', hs', by rw [hs'1]; exact hx1, hs'2 q.id hx2 hne⟩
    · intro p hp q hq
      refine h.wLink p ?_ q hq
      rwa [coordResolvers_congr (rfl : (updateSession w sid
        (fun s' => { s' with pendingResolvers := s'.pendingResolvers.filter (fun x => x != qid) })).coordAgent = w.coordAgent)] at hp

theorem coordResolvers_eq_of_some {w : World} {ca : CoordinatorAgent}
    (h : w.coordAgent = some ca) : coordResolvers w = ca.workerResolvers := by
  unfold coordResolvers
  rw [h]

theorem coordResolvers_eq_of_none {w : World} (h : w.coordAgent = none) :
    coordResolvers w = [] := by
  unfold coordResolvers
  rw [h]

/-- Worker resolvers after `onQuestion`: old pairs, or the freshly stored one. -/
theorem onQuestion_coordResolvers_sub (q : PendingQuestion) (sid : Nat) (w : World) :
    ∀ p ∈ coordResolvers (onQuestion q sid w), p ∈ coordResolvers w ∨ p = (q.id, sid) := by
  intro p hp
  by_cases hrun : coordRunning w = true
  · have hex : ∃ ca, w.coordAgent = some ca ∧ ca.running = true := by
      unfold coordRunning at hrun
      cases hca : w.coordAgent with
      | none => rw [hca] at hrun; exact absurd hrun (by simp)
      | some ca => rw [hca] at hrun; exact ⟨ca, rfl, hrun⟩
    obtain ⟨ca, hca, hr⟩ := hex
    rw [coordResolvers_eq_of_some (onQuestion_coordAgent_running q sid w ca hca hr)] at hp
    rw [notifyWorkerQuestion_workerResolvers] at hp
    rw [coordResolvers_eq_of_some hca]
    exact setWorkerResolver_sub q.id sid ca.workerResolvers p hp
  · have hfalse : coordRunning w = false := by
      cases hb : coordRunning w
      · rfl
      · exact absurd hb hrun
    rw [coordResolvers_congr (onQuestion_coordAgent_direct q sid w hfalse)] at hp
    exact Or.inl hp

theorem handleAsk_pendingQuestions (sid : Nat) (rest : List EngineEvent) (w : World) :
    (handleAskUserQuestion sid rest w).pendingQuestions
      = setQuestion (askedQuestion sid w) w.pendingQuestions := by
  unfold handleAskUserQuestion askedQuestion
  dsimp only
  rw [updateSession_pendingQuestions, onActivityW_pendingQuestions,
    onQuestion_pendingQuestions, setStatusW_pendingQuestions, freshId_pendingQuestions,
    freshId_fst, findSession_freshId]

theorem handleAsk_pendingEscalations (sid : Nat) (rest : List EngineEvent) (w : World) :
    (handleAskUserQuestion sid rest w).pendingEscalations = w.pendingEscalations := by
  unfold handleAskUserQuestion
  dsimp only
  rw [updateSession_pendingEscalations, onActivityW_pendingEscalations,
    onQuestion_pendingEscalations, setStatusW_pendingEscalations, freshId_pendingEscalations]

theorem handleAsk_nextId (sid : Nat) (rest : List EngineEvent) (w : World) :
    (handleAskUserQuestion sid rest w).nextId = w.nextId + 2 := by
  unfold handleAskUserQuestion
  dsimp only
  rw [updateSession_nextId, onActivityW_nextId, onQuestion_nextId, setStatusW_nextId,
    freshId_nextId]

theorem handleAsk_coordResolvers_sub (sid : Nat) (rest : List EngineEvent) (w : World) :
    ∀ p ∈ coordResolvers (handleAskUserQuestion sid rest w),
      p ∈ coordResolvers w ∨ p = (w.nextId, sid) := by
  intro p hp
  have hp' : p ∈ coordResolvers (onQuestion (askedQuestion sid w) sid
      (setStatusW (freshId w).2 sid AgentStatus.waiting_for_input)) := hp
  rcases onQuestion_coordResolvers_sub (askedQuestion sid w) sid
      (setStatusW (freshId w).2 sid AgentStatus.waiting_for_input) p hp' with hold | hnew
  · exact Or.inl hold
  · exact Or.inr hnew

theorem handleAsk_sessions_facts (sid : Nat) (rest : List EngineEvent) (w : World) :
    ((handleAskUserQuestion sid rest w).sessions.map (fun s => s.id)
        = w.sessions.map (fun s => s.id))
    ∧ (∀ x ∈ w.sessions, ∃ s' ∈ (handleAskUserQuestion sid rest w).sessions,
        s'.id = x.id ∧ (∀ v ∈ x.pendingResolvers, v ∈ s'.pendingResolvers)
        ∧ (x.id = sid → w.nextId ∈ s'.pendingResolvers)) := by
  have hsess : (handleAskUserQuestion sid rest w).sessions
      = (w.sessions.map (fun s => if s.id == sid then
            { s with status := AgentStatus.waiting_for_input,
                     statusHistory := s.statusHistory ++ [AgentStatus.waiting_for_input] } else s)).map
          (fun s => if s.id == sid then
            { s with pendingResolvers := setResolver w.nextId s.pendingResolvers,
                     exec := SessionExec.awaitingAnswer w.nextId rest } else s) := by
    unfold handleAskUserQuestion
    dsimp only
    rw [updateSession_sessions, onActivityW_sessions, onQuestion_sessions, setStatusW_sessions,
      freshId_sessions, freshId_fst]
  rw [hsess]
  constructor
  · rw [List.map_map, List.map_map]
    refine List.map_congr_left ?_
    intro z _
    rw [Function.comp_apply, Function.comp_apply]
    by_cases hz : (z.id == sid) = true
    · simp [hz]
    · simp [hz]
  · intro x hx
    refine ⟨_, List.mem_map.mpr ⟨_, List.mem_map.mpr ⟨x, hx, rfl⟩, rfl⟩, ?_, ?_, ?_⟩
    · by_cases hz : (x.id == sid) = true
      · simp [hz]
      · simp [hz]
    · intro v hv
      by_cases hz : (x.id == sid) = true
      · simp only [hz, if_true]
        exact setResolver_mem_of_mem _ v _ hv
      · simp only [hz, Bool.false_eq_true, if_false]
        exact hv
    · intro hz
      have hz' : (x.id == sid) = true := by simpa using hz
      simp only [hz', if_true]
      exact setResolver_mem _ _

/-- `handleAskUserQuestion` preserves the reachability invariant: the fresh
question is registered together with its promise-bridge resolver in the
owning session (and, in supervised mode, a worker resolver targeting that
same session). -/
theorem handleAsk_inv {w : World} {sid : Nat} {s : Session} (rest : List EngineEvent)
    (hs : findSession w sid = some s) (h : WorldInv w) :
    WorldInv (handleAskUserQuestion sid rest w) := by
  have hQ := handleAsk_pendingQuestions sid rest w
  have hE := handleAsk_pendingEscalations sid rest w
  have hN := handleAsk_nextId sid rest w
  have hW := handleAsk_coordResolvers_sub sid rest w
  have hSF := handleAsk_sessions_facts sid rest w
  have hsmem := findSession_mem hs
  constructor
  · intro q hq
    rw [hQ] at hq
    rw [hN]
    rcases setQuestion_sub _ _ q hq with hold | hnew
    · exact lt_trans (h.qFresh q hold) (by omega)
    · rw [hnew]
      unfold askedQuestion
      dsimp only
      omega
  · intro p hp
    rw [hN]
    rcases hW p hp with hold | hnew
    · exact lt_trans (h.wFresh p hold) (by omega)
    · rw [hnew]
      omega
  · intro s' hs'
    have hid : s'.id ∈ w.sessions.map (fun s => s.id) := by
      rw [← hSF.1]
      exact List.mem_map.mpr ⟨s', hs', rfl⟩
    obtain ⟨x, hx, hxid⟩ := List.mem_map.mp hid
    rw [hN, ← hxid]
    exact lt_trans (h.sFresh x hx) (by omega)
  · rw [hSF.1]
    exact h.sNodup
  · intro e he
    rw [hE] at he
    obtain ⟨q, hqmem, hq1, hq2⟩ := h.escQ e he
    refine ⟨q, ?_, hq1, hq2⟩
    rw [hQ]
    refine setQuestion_mem_of_ne _ q _ hqmem ?_
    unfold askedQuestion
    dsimp only
    have := h.qFresh q hqmem
    omega
  · intro q hq
    rw [hQ] at hq
    rcases setQuestion_sub _ _ q hq with hold | hnew
    · obtain ⟨x, hx, hx1, hx2⟩ := h.qRes q hold
      obtain ⟨s', hs', hs'1, hs'2, _⟩ := hSF.2 x hx
      exact ⟨s', hs', by rw [hs'1]; exact hx1, hs'2 q.id hx2⟩
    · obtain ⟨s', hs', hs'1, _, hs'3⟩ := hSF.2 s hsmem.1
      refine ⟨s', hs', ?_, ?_⟩
      · rw [hs'1, hsmem.2, hnew]
        rfl
      · rw [hnew]
        exact hs'3 hsmem.2
  · intro p hp q hq
    rw [hQ] at hq
    rcases hW p hp with hpold | hpnew
    · rcases setQuestion_sub _ _ q hq with hold | hnew
      · exact h.wLink p hpold q hold
      · intro hqp
        have h1 := h.wFresh p hpold
        rw [hnew] at hqp
        unfold askedQuestion at hqp
        simp at hqp
        omega
    · rcases setQuestion_sub _ _ q hq with hold | hnew
      · intro hqp
        have h1 := h.qFresh q hold
        rw [hpnew] at hqp
        simp at hqp
        omega
      · intro _
        rw [hnew, hpnew]
        rfl

/-- Transport of the reachability invariant when sessions and questions are
kept, the escalation set only shrinks, the worker-resolver set only
shrinks, and the identifier counter does not decrease. -/
theorem WorldInv.escFilter {w w' : World} (h : WorldInv w)
    (hsess : w'.sessions = w.sessions)
    (hq : w'.pendingQuestions = w.pendingQuestions)
    (he : ∀ e ∈ w'.pendingEscalations, e ∈ w.pendingEscalations)
    (hr : ∀ p ∈ coordResolvers w', p ∈ coordResolvers w)
    (hn : w.nextId ≤ w'.nextId) : WorldInv w' := by
  constructor
  · intro q hq2
    rw [hq] at hq2
    exact lt_of_lt_of_le (h.qFresh q hq2) hn
  · intro p hp
    exact lt_of_lt_of_le (h.wFresh p (hr p hp)) hn
  · intro s hs
    rw [hsess] at hs
    exact lt_of_lt_of_le (h.sFresh s hs) hn
  · rw [hsess]
    exact h.sNodup
  · intro e he2
    obtain ⟨q, hqq, h1, h2⟩ := h.escQ e (he e he2)
    exact ⟨q, by rw [hq]; exact hqq, h1, h2⟩
  · intro q hq2
    rw [hq] at hq2
    obtain ⟨s, hsmem, h1, h2⟩ := h.qRes q hq2
    exact ⟨s, by rw [hsess]; exact hsmem, h1, h2⟩
  · intro p hp q hq2
    rw [hq] at hq2
    exact h.wLink p (hr p hp) q hq2

/-- Transport when the maps are kept and only the worker resolvers shrink. -/
theorem WorldInv.resolverSub {w w' : World} (h : WorldInv w)
    (hsess : w'.sessions = w.sessions)
    (hq : w'.pendingQuestions = w.pendingQuestions)
    (he : w'.pendingEscalations = w.pendingEscalations)
    (hr : ∀ p ∈ coordResolvers w', p ∈ coordResolvers w)
    (hn : w.nextId ≤ w'.nextId) : WorldInv w' :=
  h.escFilter hsess hq (fun e he2 => by rw [he] at he2; exact he2) hr hn

/-- One engine step preserves the reachability invariant. -/
theorem engineStep_inv {w : World} (sid : Nat) (h : WorldInv w) :
    WorldInv (engineStep sid w) := by
  unfold engineStep
  cases hfs : findSession w sid with
  | none => exact h
  | some s =>
    dsimp only
    cases hex : s.exec with
    | running evs =>
      cases evs with
      | nil => exact sessionCompleted_inv sid h
      | cons e rest =>
        cases e with
        | ask => exact handleAsk_inv rest hfs h
        | crash m => exact sessionErrored_inv sid m h
    | awaitingAnswer qid evs =>
      cases evs with
      | nil => exact sessionCompleted_inv sid h
      | cons e rest =>
        cases e with
        | ask => exact h
        | crash m => exact sessionErrored_inv sid m h
    | finished => exact h

theorem caSendDirective_workerResolvers (t : String) (ca : CoordinatorAgent) :
    (caSendDirective t ca).workerResolvers = ca.workerResolvers := by
  unfold caSendDirective
  split
  · rw [pushInput_workerResolvers]
  · rfl

/-- Creating a fresh coordinator agent preserves the invariant (its resolver
map starts empty). -/
theorem startCoordinatorFresh_inv {w : World} (h : WorldInv w) :
    WorldInv (startCoordinatorFresh w) := by
  refine h.resolverSub rfl rfl rfl ?_ le_rfl
  intro p hp
  exact absurd (hp : p ∈ ([] : List (Nat × Nat))) (List.not_mem_nil p)

theorem stopCoordinator_inv {w : World} (h : WorldInv w) :
    WorldInv (stopCoordinator w) := by
  unfold stopCoordinator
  split
  · exact h
  · rename_i ca hca
    refine h.resolverSub rfl rfl rfl ?_ le_rfl
    intro p hp
    have hp2 : p ∈ ca.workerResolvers := hp
    rw [coordResolvers_eq_of_some hca]
    exact hp2

theorem coordSessionInit_inv {w : World} (csid : Nat) (h : WorldInv w) :
    WorldInv (coordSessionInit csid w) := by
  unfold coordSessionInit
  split
  · exact h
  · rename_i ca hca
    refine h.resolverSub rfl rfl rfl ?_ (Nat.le_succ _)
    intro p hp
    have hp2 : p ∈ ca.workerResolvers := hp
    rw [coordResolvers_eq_of_some hca]
    exact hp2

theorem sendDirective_inv {w : World} (t : String) (h : WorldInv w) :
    WorldInv (sendDirective t w) := by
  unfold sendDirective
  dsimp only
  split
  · rename_i ca heq
    have hca : w.coordAgent = some ca := heq
    split
    · refine h.resolverSub rfl rfl rfl ?_ (Nat.le_succ _)
      intro p hp
      have hp2 : p ∈ (caSendDirective t ca).workerResolvers := hp
      rw [caSendDirective_workerResolvers] at hp2
      rw [coordResolvers_eq_of_some hca]
      exact hp2
    · exact startCoordinatorFresh_inv
        (h.of_same rfl rfl rfl (coordResolvers_congr rfl) (Nat.le_succ _))
  · exact startCoordinatorFresh_inv
      (h.of_same rfl rfl rfl (coordResolvers_congr rfl) (Nat.le_succ _))

theorem startCoordinator_inv {w : World} (t : String) (h : WorldInv w) :
    WorldInv (startCoordinator t w) := by
  unfold startCoordinator
  split
  · split
    · exact sendDirective_inv t h
    · exact startCoordinatorFresh_inv h
  · exact startCoordinatorFresh_inv h

theorem submitAnswer_inv {w : World} (qid : Nat) (h : WorldInv w) :
    WorldInv (submitAnswer qid w).2 := by
  unfold submitAnswer
  split
  · exact h
  · rename_i q hq
    split
    · exact h
    · exact resolveAnswerFull_inv q.agentId qid h

theorem escalate_to_human_inv {w : World} (qid : Nat) (reason : String) (h : WorldInv w) :
    WorldInv (escalate_to_human qid reason w).2 := by
  unfold escalate_to_human
  split
  · exact h
  · rename_i ca hca
    split
    · exact h
    · rename_i q hfind
      have hqmem : q ∈ w.pendingQuestions := List.mem_of_find?_eq_some hfind
      constructor
      · intro q2 hq2
        exact h.qFresh q2 hq2
      · intro p hp
        exact h.wFresh p hp
      · intro s hs
        exact h.sFresh s hs
      · exact h.sNodup
      · intro e he
        rcases setEscalation_sub _ _ e he with hold | hnew
        · exact h.escQ e hold
        · refine ⟨q, hqmem, ?_, ?_⟩
          · rw [hnew]
          · rw [hnew]
      · intro q2 hq2
        exact h.qRes q2 hq2
      · intro p hp q2 hq2
        exact h.wLink p hp q2 hq2

theorem stopAgent_inv {w : World} (sid : Nat) (h : WorldInv w) :
    WorldInv (stopAgent sid w).2 := by
  unfold stopAgent
  split
  · exact h
  · dsimp only
    have h1 : WorldInv (sessionStop sid w) :=
      setStatusW_inv sid _ (updateSession_inv sid _ (fun _ => ⟨rfl, rfl⟩) h)
    constructor
    · intro q hq
      exact h1.qFresh q (List.mem_of_mem_filter hq)
    · intro p hp
      exact h1.wFresh p hp
    · intro s2 hs2
      exact h1.sFresh s2 hs2
    · exact h1.sNodup
    · intro e he
      have hmem : e ∈ (sessionStop sid w).pendingEscalations := List.mem_of_mem_filter he
      have hne0 := List.of_mem_filter he
      have hne : (e.agentId != sid) = true := hne0
      obtain ⟨q, hqmem, hq1, hq2⟩ := h1.escQ e hmem
      refine ⟨q, ?_, hq1, hq2⟩
      refine List.mem_filter.mpr ⟨hqmem, ?_⟩
      show (q.agentId != sid) = true
      rw [hq2]
      exact hne
    · intro q hq
      obtain ⟨s2, hs2, hx1, hx2⟩ := h1.qRes q (List.mem_of_mem_filter hq)
      exact ⟨s2, hs2, hx1, hx2⟩
    · intro p hp q hq
      exact h1.wLink p hp q (List.mem_of_mem_filter hq)

theorem startAgent_inv {w : World} (pn pp pr : String) (script : List EngineEvent)
    (h : WorldInv w) : WorldInv (startAgent pn pp pr script w).2 := by
  unfold startAgent
  dsimp only
  refine onActivityW_inv _ _ _ (setStatusW_inv _ _ ?_)
  constructor
  · intro q hq
    exact lt_trans (h.qFresh q hq) (Nat.lt_succ_self _)
  · intro p hp
    exact lt_trans (h.wFresh p hp) (Nat.lt_succ_self _)
  · intro s hs
    rcases List.mem_append.mp hs with hold | hnew
    · exact lt_trans (h.sFresh s hold) (Nat.lt_succ_self _)
    · rw [List.mem_singleton] at hnew
      rw [hnew]
      exact Nat.lt_succ_self _
  · have hkey : ((w.sessions ++ [(⟨w.nextId, pn, pp, pr, AgentStatus.starting,
        [AgentStatus.starting], [], SessionExec.running script, none, false⟩ : Session)]).map
          (fun s => s.id)).Nodup := by
      rw [List.map_append]
      refine List.Nodup.append h.sNodup ?_ ?_
      · simp
      · intro a ha hb
        obtain ⟨x, hx, hxa⟩ := List.mem_map.mp ha
        have hb2 : a = w.nextId := by simpa using hb
        have hfr := h.sFresh x hx
        omega
    exact hkey
  · intro e he
    obtain ⟨q, hqm, h1, h2⟩ := h.escQ e he
    exact ⟨q, hqm, h1, h2⟩
  · intro q hq
    obtain ⟨x, hx, h1, h2⟩ := h.qRes q hq
    exact ⟨x, List.mem_append_left _ hx, h1, h2⟩
  · intro p hp q hq
    exact h.wLink p hp q hq

theorem answer_worker_question_inv {w : World} (qid : Nat) (h : WorldInv w) :
    WorldInv (answer_worker_question qid w).2 := by
  unfold answer_worker_question
  split
  · exact h
  · rename_i ca hca
    split
    · exact h
    · rename_i p hfind
      dsimp only
      refine resolveAnswerFull_inv p.2 qid ?_
      refine h.resolverSub rfl rfl rfl ?_ le_rfl
      intro r hr
      have hr2 : r ∈ ca.workerResolvers.filter (fun x => x.1 != qid) := hr
      rw [coordResolvers_eq_of_some hca]
      exact List.mem_of_mem_filter hr2

theorem submitEscalationAnswer_inv {w : World} (qid : Nat) (h : WorldInv w) :
    WorldInv (submitEscalationAnswer qid w).2 := by
  unfold submitEscalationAnswer
  split
  · exact h
  · rename_i e1 hesc
    split
    · exact submitAnswer_inv qid h
    · rename_i ca hca
      split
      · exact submitAnswer_inv qid h
      · rename_i p hfind
        dsimp only
        set W1 : World := { w with coordAgent := some { ca with
          workerResolvers := ca.workerResolvers.filter (fun r => r.1 != qid) } } with hW1def
        have hW1 : WorldInv W1 := by
          refine h.resolverSub rfl rfl rfl ?_ le_rfl
          intro r hr
          have hr2 : r ∈ ca.workerResolvers.filter (fun x => x.1 != qid) := hr
          rw [coordResolvers_eq_of_some hca]
          exact List.mem_of_mem_filter hr2
        rcases resolveAnswer_cases p.2 qid W1 with hc | hc
        · rw [hc]
          dsimp only
          refine hW1.escFilter rfl rfl ?_ ?_ le_rfl
          · intro e2 he2
            exact List.mem_of_mem_filter he2
          · intro r hr
            have hr3 : r ∈ ca.workerResolvers.filter (fun x => x.1 != qid) := hr
            exact hr3
        · rw [hc]
          dsimp only
          have hfacts := consumeResolver_facts p.2 qid W1
          refine questionResumed_inv p.2 qid _ ?_ ?_ ?_ ?_ ?_ ?_ ?_
          · intro q hq
            exact hW1.qFresh q hq
          · intro r hr
            have hr3 : r ∈ ca.workerResolvers.filter (fun x => x.1 != qid) := hr
            exact hW1.wFresh r hr3
          · intro s hs
            have hid : s.id ∈ W1.sessions.map (fun s => s.id) := by
              rw [← hfacts.1]
              exact List.mem_map.mpr ⟨s, hs, rfl⟩
            obtain ⟨x, hx, hxid⟩ := List.mem_map.mp hid
            rw [← hxid]
            exact hW1.sFresh x hx
          · have hkey : ((updateSession W1 p.2 (fun s' => { s' with
                pendingResolvers := s'.pendingResolvers.filter
                  (fun x => x != qid) })).sessions.map (fun s => s.id)).Nodup := by
              rw [hfacts.1]
              exact hW1.sNodup
            exact hkey
          · intro e2 he2 hne
            obtain ⟨q, hqm, h1, h2⟩ := hW1.escQ e2 (List.mem_of_mem_filter he2)
            exact ⟨q, hqm, h1, h2⟩
          · intro q hq hne
            obtain ⟨x, hx, hx1, hx2⟩ := hW1.qRes q hq
            obtain ⟨s2, hs2, hs21, hs22⟩ := hfacts.2 x hx
            refine ⟨s2, hs2, ?_, ?_⟩
            · rw [hs21]
              exact hx1
            · exact hs22 q.id hx2 hne
          · intro r hr q hq hqr
            have hr3 : r ∈ ca.workerResolvers.filter (fun x => x.1 != qid) := hr
            exact hW1.wLink r hr3 q hq hqr

/-- Every operation on the public surface preserves the reachability
invariant. -/
theorem applyOp_inv {w : World} (op : Op) (h : WorldInv w) :
    WorldInv (applyOp op w).2 := by
  cases op with
  | startAgent pn pp pr script => exact startAgent_inv pn pp pr script h
  | engineStep sid => exact engineStep_inv sid h
  | submitAnswer qid => exact submitAnswer_inv qid h
  | submitEscalationAnswer qid => exact submitEscalationAnswer_inv qid h
  | answerWorkerQuestion qid => exact answer_worker_question_inv qid h
  | escalateToHuman qid reason => exact escalate_to_human_inv qid reason h
  | stopAgent sid => exact stopAgent_inv sid h
  | startCoordinator d => exact startCoordinator_inv d h
  | sendDirective t => exact sendDirective_inv t h
  | stopCoordinator => exact stopCoordinator_inv h
  | coordSessionInit csid => exact coordSessionInit_inv csid h

/-- The invariant holds initially. -/
theorem initialWorld_inv : WorldInv initialWorld := by
  constructor
  · intro q hq
    exact absurd hq (List.not_mem_nil q)
  · intro p hp
    exact absurd (hp : p ∈ ([] : List (Nat × Nat))) (List.not_mem_nil p)
  · intro s hs
    exact absurd hs (List.not_mem_nil s)
  · exact List.nodup_nil
  · intro e he
    exact absurd he (List.not_mem_nil e)
  · intro q hq
    exact absurd hq (List.not_mem_nil q)
  · intro p hp
    exact absurd (hp : p ∈ ([] : List (Nat × Nat))) (List.not_mem_nil p)

theorem runOpsAnn_cons (v : World) (op : Op) (rest : List Op) :
    runOpsAnn v (op :: rest)
      = ((runOpsAnn (applyOp op v).2 rest).1,
         (op, (applyOp op v).1) :: (runOpsAnn (applyOp op v).2 rest).2) := rfl

theorem sessionCompleted_nextId (sid : Nat) (w : World) :
    (sessionCompleted sid w).nextId = w.nextId + 1 := by
  simp [sessionCompleted]

theorem sessionErrored_nextId (sid : Nat) (m : String) (w : World) :
    (sessionErrored sid m w).nextId = w.nextId + 1 := by
  simp [sessionErrored]

theorem resolveAnswerFull_nextId_mono (sid qid : Nat) (w : World) :
    w.nextId ≤ (resolveAnswerFull sid qid w).2.nextId := by
  unfold resolveAnswerFull
  rcases resolveAnswer_cases sid qid w with hc | hc
  · rw [hc]
    exact le_rfl
  · rw [hc]
    dsimp only
    rw [if_pos rfl]
    dsimp only
    rw [questionResumed_nextId, updateSession_nextId]
    omega

theorem submitAnswer_nextId_mono (qid : Nat) (w : World) :
    w.nextId ≤ (submitAnswer qid w).2.nextId := by
  unfold submitAnswer
  split
  · exact le_rfl
  · rename_i q hq
    split
    · exact le_rfl
    · exact resolveAnswerFull_nextId_mono q.agentId qid w

theorem submitEscalationAnswer_nextId_mono (qid : Nat) (w : World) :
    w.nextId ≤ (submitEscalationAnswer qid w).2.nextId := by
  unfold submitEscalationAnswer
  split
  · exact le_rfl
  · split
    · exact submitAnswer_nextId_mono qid w
    · rename_i ca hca
      split
      · exact submitAnswer_nextId_mono qid w
      · rename_i p hfind
        dsimp only
        set W1 : World := { w with coordAgent := some { ca with
          workerResolvers := ca.workerResolvers.filter (fun r => r.1 != qid) } } with hW1def
        rcases resolveAnswer_cases p.2 qid W1 with hc | hc
        · rw [hc]
          exact le_rfl
        · rw [hc]
          dsimp only
          rw [if_pos rfl]
          rw [questionResumed_nextId]
          exact Nat.le_succ_of_le le_rfl

theorem answer_worker_question_nextId_mono (qid : Nat) (w : World) :
    w.nextId ≤ (answer_worker_question qid w).2.nextId := by
  unfold answer_worker_question
  split
  · exact le_rfl
  · rename_i ca hca
    split
    · exact le_rfl
    · rename_i p hfind
      dsimp only
      exact resolveAnswerFull_nextId_mono p.2 qid { w with coordAgent := some { ca with
        workerResolvers := ca.workerResolvers.filter (fun r => r.1 != qid) } }

theorem sendDirective_nextId_mono (t : String) (w : World) :
    w.nextId ≤ (sendDirective t w).nextId := by
  unfold sendDirective
  dsimp only
  split
  · split
    · exact Nat.le_succ _
    · exact Nat.le_succ _
  · exact Nat.le_succ _

/-- No operation ever decreases the identifier counter. -/
theorem applyOp_nextId_mono (op : Op) (w : World) :
    w.nextId ≤ (applyOp op w).2.nextId := by
  cases op with
  | startAgent pn pp pr script =>
    exact Nat.le_add_right w.nextId 2
  | engineStep sid =>
    show w.nextId ≤ (engineStep sid w).nextId
    unfold engineStep
    cases hfs : findSession w sid with
    | none => exact le_rfl
    | some s =>
      dsimp only
      cases hex : s.exec with
      | running evs =>
        cases evs with
        | nil =>
          show w.nextId ≤ (sessionCompleted sid w).nextId
          rw [sessionCompleted_nextId]
          omega
        | cons e rest =>
          cases e with
          | ask =>
            show w.nextId ≤ (handleAskUserQuestion sid rest w).nextId
            rw [handleAsk_nextId]
            omega
          | crash m =>
            show w.nextId ≤ (sessionErrored sid m w).nextId
            rw [sessionErrored_nextId]
            omega
      | awaitingAnswer qid2 evs =>
        cases evs with
        | nil =>
          show w.nextId ≤ (sessionCompleted sid w).nextId
          rw [sessionCompleted_nextId]
          omega
        | cons e rest =>
          cases e with
          | ask => exact le_rfl
          | crash m =>
            show w.nextId ≤ (sessionErrored sid m w).nextId
            rw [sessionErrored_nextId]
            omega
      | finished => exact le_rfl
  | submitAnswer qid => exact submitAnswer_nextId_mono qid w
  | submitEscalationAnswer qid => exact submitEscalationAnswer_nextId_mono qid w
  | answerWorkerQuestion qid => exact answer_worker_question_nextId_mono qid w
  | escalateToHuman qid reason =>
    show w.nextId ≤ (escalate_to_human qid reason w).2.nextId
    unfold escalate_to_human
    split
    · exact le_rfl
    · split
      · exact le_rfl
      · exact le_rfl
  | stopAgent sid =>
    show w.nextId ≤ (stopAgent sid w).2.nextId
    unfold stopAgent
    split
    · exact le_rfl
    · exact le_rfl
  | startCoordinator d =>
    show w.nextId ≤ (startCoordinator d w).nextId
    unfold startCoordinator
    split
    · split
      · exact sendDirective_nextId_mono d w
      · exact le_rfl
    · exact le_rfl
  | sendDirective t => exact sendDirective_nextId_mono t w
  | stopCoordinator =>
    show w.nextId ≤ (stopCoordinator w).nextId
    unfold stopCoordinator
    split
    · exact le_rfl
    · exact le_rfl
  | coordSessionInit csid =>
    show w.nextId ≤ (coordSessionInit csid w).nextId
    unfold coordSessionInit
    split
    · exact le_rfl
    · exact Nat.le_succ _

theorem questionIds_resolveAnswerFull_sub (sid qid : Nat) (w : World) :
    ∀ x ∈ questionIds (resolveAnswerFull sid qid w).2, x ∈ questionIds w := by
  unfold resolveAnswerFull
  rcases resolveAnswer_cases sid qid w with hc | hc
  · rw [hc]
    intro x hx
    exact hx
  · rw [hc]
    dsimp only
    rw [if_pos rfl]
    dsimp only
    intro x hx
    unfold questionIds at hx ⊢
    rw [questionResumed_pendingQuestions] at hx
    obtain ⟨q, hq, hqx⟩ := List.mem_map.mp hx
    exact List.mem_map.mpr ⟨q, List.mem_of_mem_filter hq, hqx⟩

theorem questionIds_submitAnswer_sub (qid : Nat) (w : World) :
    ∀ x ∈ questionIds (submitAnswer qid w).2, x ∈ questionIds w := by
  unfold submitAnswer
  split
  · intro x hx
    exact hx
  · rename_i q hq
    split
    · intro x hx
      exact hx
    · exact questionIds_resolveAnswerFull_sub q.agentId qid w

theorem sendDirective_pendingQuestions (t : String) (w : World) :
    (sendDirective t w).pendingQuestions = w.pendingQuestions := by
  unfold sendDirective
  dsimp only
  split
  · split
    · rfl
    · rfl
  · rfl

theorem startCoordinator_pendingQuestions (t : String) (w : World) :
    (startCoordinator t w).pendingQuestions = w.pendingQuestions := by
  unfold startCoordinator
  split
  · split
    · exact sendDirective_pendingQuestions t w
    · rfl
  · rfl

/-- Any operation can only drop pending questions or add the freshly
allocated identifier. -/
theorem questionIds_sub_applyOp (op : Op) (w : World) :
    ∀ x ∈ questionIds (applyOp op w).2, x ∈ questionIds w ∨ x = w.nextId := by
  cases op with
  | startAgent pn pp pr script =>
    intro x hx
    exact Or.inl hx
  | engineStep sid =>
    show ∀ x ∈ questionIds (engineStep sid w), x ∈ questionIds w ∨ x = w.nextId
    unfold engineStep
    cases hfs : findSession w sid with
    | none =>
      intro x hx
      exact Or.inl hx
    | some s =>
      dsimp only
      cases hex : s.exec with
      | running evs =>
        cases evs with
        | nil =>
          intro x hx
          exact Or.inl hx
        | cons e rest =>
          cases e with
          | ask =>
            intro x hx
            have hx2 : x ∈ (setQuestion (askedQuestion sid w) w.pendingQuestions).map
                (fun q => q.id) := by
              have h3 : x ∈ questionIds (handleAskUserQuestion sid rest w) := hx
              unfold questionIds at h3
              rw [handleAsk_pendingQuestions] at h3
              exact h3
            obtain ⟨q, hq, hqx⟩ := List.mem_map.mp hx2
            rcases setQuestion_sub _ _ q hq with hold | hnew
            · exact Or.inl (List.mem_map.mpr ⟨q, hold, hqx⟩)
            · right
              rw [← hqx, hnew]
              rfl
          | crash m =>
            intro x hx
            exact Or.inl hx
      | awaitingAnswer qid2 evs =>
        cases evs with
        | nil =>
          intro x hx
          exact Or.inl hx
        | cons e rest =>
          cases e with
          | ask =>
            intro x hx
            exact Or.inl hx
          | crash m =>
            intro x hx
            exact Or.inl hx
      | finished =>
        intro x hx
        exact Or.inl hx
  | submitAnswer qid2 =>
    intro x hx
    exact Or.inl (questionIds_submitAnswer_sub qid2 w x hx)
  | submitEscalationAnswer qid2 =>
    show ∀ x ∈ questionIds (submitEscalationAnswer qid2 w).2,
      x ∈ questionIds w ∨ x = w.nextId
    unfold submitEscalationAnswer
    split
    · intro x hx
      exact Or.inl hx
    · split
      · intro x hx
        exact Or.inl (questionIds_submitAnswer_sub qid2 w x hx)
      · rename_i ca hca
        split
        · intro x hx
          exact Or.inl (questionIds_submitAnswer_sub qid2 w x hx)
        · rename_i p hfind
          dsimp only
          set W1 : World := { w with coordAgent := some { ca with
            workerResolvers := ca.workerResolvers.filter (fun r => r.1 != qid2) } } with hW1def
          rcases resolveAnswer_cases p.2 qid2 W1 with hc | hc
          · rw [hc]
            dsimp only
            intro x hx
            exact Or.inl hx
          · rw [hc]
            dsimp only
            rw [if_pos rfl]
            intro x hx
            unfold questionIds at hx
            rw [questionResumed_pendingQuestions] at hx
            obtain ⟨q, hq, hqx⟩ := List.mem_map.mp hx
            refine Or.inl ?_
            have hfin : x ∈ w.pendingQuestions.map (fun q => q.id) :=
              List.mem_map.mpr ⟨q, List.mem_of_mem_filter hq, hqx⟩
            exact hfin
  | answerWorkerQuestion qid2 =>
    show ∀ x ∈ questionIds (answer_worker_question qid2 w).2,
      x ∈ questionIds w ∨ x = w.nextId
    unfold answer_worker_question
    split
    · intro x hx
      exact Or.inl hx
    · rename_i ca hca
      split
      · intro x hx
        exact Or.inl hx
      · rename_i p hfind
        dsimp only
        intro x hx
        have hx0 := questionIds_resolveAnswerFull_sub p.2 qid2 { w with
          coordAgent := some { ca with
            workerResolvers := ca.workerResolvers.filter (fun r => r.1 != qid2) } } x hx
        exact Or.inl hx0
  | escalateToHuman qid2 reason =>
    show ∀ x ∈ questionIds (escalate_to_human qid2 reason w).2,
      x ∈ questionIds w ∨ x = w.nextId
    unfold escalate_to_human
    split
    · intro x hx
      exact Or.inl hx
    · split
      · intro x hx
        exact Or.inl hx
      · intro x hx
        exact Or.inl hx
  | stopAgent sid =>
    show ∀ x ∈ questionIds (stopAgent sid w).2, x ∈ questionIds w ∨ x = w.nextId
    unfold stopAgent
    split
    · intro x hx
      exact Or.inl hx
    · dsimp only
      intro x hx
      have hx2 : x ∈ (w.pendingQuestions.filter (fun q => q.agentId != sid)).map
          (fun q => q.id) := hx
      obtain ⟨q, hq, hqx⟩ := List.mem_map.mp hx2
      exact Or.inl (List.mem_map.mpr ⟨q, List.mem_of_mem_filter hq, hqx⟩)
  | startCoordinator d =>
    intro x hx
    refine Or.inl ?_
    have hx0 : x ∈ questionIds (startCoordinator d w) := hx
    unfold questionIds at hx0
    rw [startCoordinator_pendingQuestions] at hx0
    exact hx0
  | sendDirective t =>
    intro x hx
    refine Or.inl ?_
    have hx0 : x ∈ questionIds (sendDirective t w) := hx
    unfold questionIds at hx0
    rw [sendDirective_pendingQuestions] at hx0
    exact hx0
  | stopCoordinator =>
    show ∀ x ∈ questionIds (stopCoordinator w), x ∈ questionIds w ∨ x = w.nextId
    unfold stopCoordinator
    split
    · intro x hx
      exact Or.inl hx
    · intro x hx
      exact Or.inl hx
  | coordSessionInit csid =>
    show ∀ x ∈ questionIds (coordSessionInit csid w), x ∈ questionIds w ∨ x = w.nextId
    unfold coordSessionInit
    split
    · intro x hx
      exact Or.inl hx
    · intro x hx
      exact Or.inl hx

theorem resolveAnswerFull_coordAgent (sid qid : Nat) (w : World) :
    (resolveAnswerFull sid qid w).2.coordAgent = w.coordAgent := by
  unfold resolveAnswerFull
  rcases resolveAnswer_cases sid qid w with hc | hc
  · rw [hc]
    rfl
  · rw [hc]
    dsimp only
    rw [if_pos rfl]
    dsimp only
    rw [questionResumed_coordAgent, updateSession_coordAgent]

theorem submitAnswer_coordAgent (qid : Nat) (w : World) :
    (submitAnswer qid w).2.coordAgent = w.coordAgent := by
  unfold submitAnswer
  split
  · rfl
  · rename_i q hq
    split
    · rfl
    · exact resolveAnswerFull_coordAgent q.agentId qid w

theorem wkeys_sendDirective_sub (t : String) (w : World) :
    ∀ x ∈ wkeys (sendDirective t w), x ∈ wkeys w := by
  unfold sendDirective
  dsimp only
  split
  · rename_i ca heq
    have hca : w.coordAgent = some ca := heq
    split
    · intro x hx
      have hx2 : x ∈ (caSendDirective t ca).workerResolvers.map (fun r => r.1) := hx
      rw [caSendDirective_workerResolvers] at hx2
      show x ∈ (coordResolvers w).map (fun r => r.1)
      rw [coordResolvers_eq_of_some hca]
      exact hx2
    · intro x hx
      exact absurd (hx : x ∈ ([] : List Nat)) (List.not_mem_nil x)
  · intro x hx
    exact absurd (hx : x ∈ ([] : List Nat)) (List.not_mem_nil x)

/-- Any operation can only drop stored worker resolvers or add one under the
freshly allocated question identifier. -/
theorem wkeys_sub_applyOp (op : Op) (w : World) :
    ∀ x ∈ wkeys (applyOp op w).2, x ∈ wkeys w ∨ x = w.nextId := by
  cases op with
  | startAgent pn pp pr script =>
    intro x hx
    exact Or.inl hx
  | engineStep sid =>
    show ∀ x ∈ wkeys (engineStep sid w), x ∈ wkeys w ∨ x = w.nextId
    unfold engineStep
    cases hfs : findSession w sid with
    | none =>
      intro x hx
      exact Or.inl hx
    | some s =>
      dsimp only
      cases hex : s.exec with
      | running evs =>
        cases evs with
        | nil =>
          intro x hx
          exact Or.inl hx
        | cons e rest =>
          cases e with
          | ask =>
            intro x hx
            have hx2 : x ∈ wkeys (handleAskUserQuestion sid rest w) := hx
            unfold wkeys at hx2
            obtain ⟨p, hp, hpx⟩ := List.mem_map.mp hx2
            rcases handleAsk_coordResolvers_sub sid rest w p hp with hold | hnew
            · exact Or.inl (List.mem_map.mpr ⟨p, hold, hpx⟩)
            · right
              rw [← hpx, hnew]
          | crash m =>
            intro x hx
            exact Or.inl hx
      | awaitingAnswer qid2 evs =>
        cases evs with
        | nil =>
          intro x hx
          exact Or.inl hx
        | cons e rest =>
          cases e with
          | ask =>
            intro x hx
            exact Or.inl hx
          | crash m =>
            intro x hx
            exact Or.inl hx
      | finished =>
        intro x hx
        exact Or.inl hx
  | submitAnswer qid2 =>
    intro x hx
    refine Or.inl ?_
    have hx0 : x ∈ wkeys (submitAnswer qid2 w).2 := hx
    unfold wkeys at hx0
    rw [coordResolvers_congr (submitAnswer_coordAgent qid2 w)] at hx0
    exact hx0
  | submitEscalationAnswer qid2 =>
    show ∀ x ∈ wkeys (submitEscalationAnswer qid2 w).2, x ∈ wkeys w ∨ x = w.nextId
    unfold submitEscalationAnswer
    split
    · intro x hx
      exact Or.inl hx
    · split
      · intro x hx
        refine Or.inl ?_
        have hx0 : x ∈ wkeys (submitAnswer qid2 w).2 := hx
        unfold wkeys at hx0
        rw [coordResolvers_congr (submitAnswer_coordAgent qid2 w)] at hx0
        exact hx0
      · rename_i ca hca
        split
        · intro x hx
          refine Or.inl ?_
          have hx0 : x ∈ wkeys (submitAnswer qid2 w).2 := hx
          unfold wkeys at hx0
          rw [coordResolvers_congr (submitAnswer_coordAgent qid2 w)] at hx0
          exact hx0
        · rename_i p hfind
          dsimp only
          set W1 : World := { w with coordAgent := some { ca with
            workerResolvers := ca.workerResolvers.filter (fun r => r.1 != qid2) } } with hW1def
          rcases resolveAnswer_cases p.2 qid2 W1 with hc | hc
          · rw [hc]
            dsimp only
            intro x hx
            have hx2 : x ∈ (ca.workerResolvers.filter (fun r => r.1 != qid2)).map
                (fun r => r.1) := hx
            obtain ⟨r, hr, hrx⟩ := List.mem_map.mp hx2
            refine Or.inl ?_
            have hfin : x ∈ (coordResolvers w).map (fun r => r.1) := by
              rw [coordResolvers_eq_of_some hca]
              exact List.mem_map.mpr ⟨r, List.mem_of_mem_filter hr, hrx⟩
            exact hfin
          · rw [hc]
            dsimp only
            rw [if_pos rfl]
            intro x hx
            unfold wkeys at hx
            rw [coordResolvers_congr (questionResumed_coordAgent p.2 qid2 _)] at hx
            have hx2 : x ∈ (ca.workerResolvers.filter (fun r => r.1 != qid2)).map
                (fun r => r.1) := hx
            obtain ⟨r, hr, hrx⟩ := List.mem_map.mp hx2
            refine Or.inl ?_
            have hfin : x ∈ (coordResolvers w).map (fun r => r.1) := by
              rw [coordResolvers_eq_of_some hca]
              exact List.mem_map.mpr ⟨r, List.mem_of_mem_filter hr, hrx⟩
            exact hfin
  | answerWorkerQuestion qid2 =>
    show ∀ x ∈ wkeys (answer_worker_question qid2 w).2, x ∈ wkeys w ∨ x = w.nextId
    unfold answer_worker_question
    split
    · intro x hx
      exact Or.inl hx
    · rename_i ca hca
      split
      · intro x hx
        exact Or.inl hx
      · rename_i p hfind
        dsimp only
        intro x hx
        have hx0 : x ∈ wkeys (resolveAnswerFull p.2 qid2 { w with
          coordAgent := some { ca with
            workerResolvers := ca.workerResolvers.filter (fun r => r.1 != qid2) } }).2 := hx
        unfold wkeys at hx0
        rw [coordResolvers_congr (resolveAnswerFull_coordAgent p.2 qid2 _)] at hx0
        have hx2 : x ∈ (ca.workerResolvers.filter (fun r => r.1 != qid2)).map
            (fun r => r.1) := hx0
        obtain ⟨r, hr, hrx⟩ := List.mem_map.mp hx2
        refine Or.inl ?_
        have hfin : x ∈ (coordResolvers w).map (fun r => r.1) := by
          rw [coordResolvers_eq_of_some hca]
          exact List.mem_map.mpr ⟨r, List.mem_of_mem_filter hr, hrx⟩
        exact hfin
  | escalateToHuman qid2 reason =>
    show ∀ x ∈ wkeys (escalate_to_human qid2 reason w).2, x ∈ wkeys w ∨ x = w.nextId
    unfold escalate_to_human
    split
    · intro x hx
      exact Or.inl hx
    · split
      · intro x hx
        exact Or.inl hx
      · intro x hx
        exact Or.inl hx
  | stopAgent sid =>
    show ∀ x ∈ wkeys (stopAgent sid w).2, x ∈ wkeys w ∨ x = w.nextId
    unfold stopAgent
    split
    · intro x hx
      exact Or.inl hx
    · intro x hx
      exact Or.inl hx
  | startCoordinator d =>
    show ∀ x ∈ wkeys (startCoordinator d w), x ∈ wkeys w ∨ x = w.nextId
    unfold startCoordinator
    split
    · split
      · intro x hx
        exact Or.inl (wkeys_sendDirective_sub d w x hx)
      · intro x hx
        exact absurd (hx : x ∈ ([] : List Nat)) (List.not_mem_nil x)
    · intro x hx
      exact absurd (hx : x ∈ ([] : List Nat)) (List.not_mem_nil x)
  | sendDirective t =>
    intro x hx
    exact Or.inl (wkeys_sendDirective_sub t w x hx)
  | stopCoordinator =>
    show ∀ x ∈ wkeys (stopCoordinator w), x ∈ wkeys w ∨ x = w.nextId
    unfold stopCoordinator
    split
    · intro x hx
      exact Or.inl hx
    · rename_i ca hca
      intro x hx
      have hx2 : x ∈ ca.workerResolvers.map (fun r => r.1) := hx
      refine Or.inl ?_
      show x ∈ (coordResolvers w).map (fun r => r.1)
      rw [coordResolvers_eq_of_some hca]
      exact hx2
  | coordSessionInit csid =>
    show ∀ x ∈ wkeys (coordSessionInit csid w), x ∈ wkeys w ∨ x = w.nextId
    unfold coordSessionInit
    split
    · intro x hx
      exact Or.inl hx
    · rename_i ca hca
      intro x hx
      have hx2 : x ∈ ca.workerResolvers.map (fun r => r.1) := hx
      refine Or.inl ?_
      show x ∈ (coordResolvers w).map (fun r => r.1)
      rw [coordResolvers_eq_of_some hca]
      exact hx2

theorem not_mem_ids_filter (qid : Nat) (l : List PendingQuestion) :
    qid ∉ (l.filter (fun q => q.id != qid)).map (fun q => q.id) := by
  intro hx
  obtain ⟨q, hq, hqx⟩ := List.mem_map.mp hx
  have hp := List.of_mem_filter hq
  rw [hqx] at hp
  simp at hp

theorem not_mem_wkeys_filter (qid : Nat) (l : List (Nat × Nat)) :
    qid ∉ (l.filter (fun r => r.1 != qid)).map (fun r => r.1) := by
  intro hx
  obtain ⟨r, hr, hrx⟩ := List.mem_map.mp hx
  have hp := List.of_mem_filter hr
  rw [hrx] at hp
  simp at hp

theorem resolveAnswerFull_true_snd {sid qid : Nat} {w : World}
    (ht : (resolveAnswerFull sid qid w).1 = true) :
    (resolveAnswerFull sid qid w).2 = questionResumed sid qid (updateSession w sid
      (fun s' => { s' with
        pendingResolvers := s'.pendingResolvers.filter (fun x => x != qid) })) := by
  unfold resolveAnswerFull at ht ⊢
  rcases resolveAnswer_cases sid qid w with hc | hc
  · rw [hc] at ht
    simp at ht
  · rw [hc]
    rfl

/-- A successful `submitAnswer` presupposes the question is pending. -/
theorem submitAnswer_true_mem {qid : Nat} {w : World}
    (ht : (submitAnswer qid w).1 = true) : qid ∈ questionIds w := by
  unfold submitAnswer at ht
  split at ht
  · simp at ht
  · rename_i q hfq
    split at ht
    · simp at ht
    · have hqmem := List.mem_of_find?_eq_some hfq
      have hqid : q.id = qid := by simpa using List.find?_some hfq
      exact List.mem_map.mpr ⟨q, hqmem, hqid⟩

/-- A successful `submitAnswer` deletes the question (the resolver
continuation runs `onQuestionResolved`). -/
theorem submitAnswer_true_removed {qid : Nat} {w : World}
    (ht : (submitAnswer qid w).1 = true) :
    qid ∉ questionIds (submitAnswer qid w).2 := by
  unfold submitAnswer
  split
  · rename_i hfq
    unfold submitAnswer at ht
    rw [hfq] at ht
    simp at ht
  · rename_i q hfq
    split
    · rename_i hfs
      unfold submitAnswer at ht
      rw [hfq] at ht
      dsimp only at ht
      rw [hfs] at ht
      simp at ht
    · rename_i s hfs
      have ht2 : (resolveAnswerFull q.agentId qid w).1 = true := by
        unfold submitAnswer at ht
        rw [hfq] at ht
        dsimp only at ht
        rw [hfs] at ht
        exact ht
      rw [resolveAnswerFull_true_snd ht2]
      intro hx
      unfold questionIds at hx
      rw [questionResumed_pendingQuestions] at hx
      exact absurd hx (not_mem_ids_filter qid _)

/-- A successful `answer_worker_question` presupposes a stored worker
resolver under the question id. -/
theorem awq_true_mem {qid : Nat} {w : World}
    (ht : (answer_worker_question qid w).1 = true) : qid ∈ wkeys w := by
  unfold answer_worker_question at ht
  split at ht
  · simp at ht
  · rename_i ca hca
    split at ht
    · simp at ht
    · rename_i p hfind
      have hp := List.mem_of_find?_eq_some hfind
      have hp1 : p.1 = qid := by simpa using List.find?_some hfind
      show qid ∈ (coordResolvers w).map (fun r => r.1)
      rw [coordResolvers_eq_of_some hca]
      exact List.mem_map.mpr ⟨p, hp, hp1⟩

/-- A successful `answer_worker_question` deletes the stored worker
resolver before invoking it. -/
theorem awq_true_removed {qid : Nat} {w : World}
    (ht : (answer_worker_question qid w).1 = true) :
    qid ∉ wkeys (answer_worker_question qid w).2 := by
  unfold answer_worker_question
  split
  · rename_i hca
    unfold answer_worker_question at ht
    rw [hca] at ht
    simp at ht
  · rename_i ca hca
    split
    · rename_i hfind0
      unfold answer_worker_question at ht
      rw [hca] at ht
      dsimp only at ht
      rw [hfind0] at ht
      simp at ht
    · rename_i p hfind
      dsimp only
      intro hx
      have hx0 : qid ∈ wkeys (resolveAnswerFull p.2 qid { w with
        coordAgent := some { ca with
          workerResolvers := ca.workerResolvers.filter (fun r => r.1 != qid) } }).2 := hx
      unfold wkeys at hx0
      rw [coordResolvers_congr (resolveAnswerFull_coordAgent p.2 qid _)] at hx0
      have hx2 : qid ∈ (ca.workerResolvers.filter (fun r => r.1 != qid)).map
          (fun r => r.1) := hx0
      exact absurd hx2 (not_mem_wkeys_filter qid _)

/-- On a reachable state, a successful `submitEscalationAnswer` presupposes
the underlying question is pending (the escalation shadows it). -/
theorem submitEscalationAnswer_true_mem {qid : Nat} {w : World} (h : WorldInv w)
    (ht : (submitEscalationAnswer qid w).1 = true) : qid ∈ questionIds w := by
  unfold submitEscalationAnswer at ht
  split at ht
  · simp at ht
  · rename_i e1 hesc
    have hemem := List.mem_of_find?_eq_some hesc
    have heid : e1.id = qid := by simpa using List.find?_some hesc
    obtain ⟨q, hqm, hq1, hq2⟩ := h.escQ e1 hemem
    refine List.mem_map.mpr ⟨q, hqm, ?_⟩
    rw [hq1, heid]

/-- On a reachable state, a successful `submitEscalationAnswer` removes the
underlying question from the pending set. -/
theorem submitEscalationAnswer_true_removed {qid : Nat} {w : World} (h : WorldInv w)
    (ht : (submitEscalationAnswer qid w).1 = true) :
    qid ∉ questionIds (submitEscalationAnswer qid w).2 := by
  unfold submitEscalationAnswer
  split
  · rename_i hesc
    unfold submitEscalationAnswer at ht
    rw [hesc] at ht
    simp at ht
  · rename_i e1 hesc
    split
    · rename_i hca
      refine submitAnswer_true_removed ?_
      unfold submitEscalationAnswer at ht
      rw [hesc] at ht
      dsimp only at ht
      rw [hca] at ht
      exact ht
    · rename_i ca hca
      split
      · rename_i hfind0
        refine submitAnswer_true_removed ?_
        unfold submitEscalationAnswer at ht
        rw [hesc] at ht
        dsimp only at ht
        rw [hca] at ht
        dsimp only at ht
        rw [hfind0] at ht
        exact ht
      · rename_i p hfind
        dsimp only
        have hemem := List.mem_of_find?_eq_some hesc
        have heid : e1.id = qid := by simpa using List.find?_some hesc
        have hpmem := List.mem_of_find?_eq_some hfind
        have hp1 : p.1 = qid := by simpa using List.find?_some hfind
        obtain ⟨q, hqm, hq1, hq2⟩ := h.escQ e1 hemem
        have hqid : q.id = qid := by rw [hq1, heid]
        have hagent : q.agentId = p.2 := by
          refine h.wLink p ?_ q hqm ?_
          · rw [coordResolvers_eq_of_some hca]
            exact hpmem
          · rw [hqid, hp1]
        obtain ⟨s, hsm, hsid, hres⟩ := h.qRes q hqm
        have hsid2 : s.id = p.2 := by rw [hsid, hagent]
        have hfse : findSession w p.2 = some s := findSession_eq_of_nodup h.sNodup hsm hsid2
        have hresq : qid ∈ s.pendingResolvers := by
          rw [← hqid]
          exact hres
        set W1 : World := { w with coordAgent := some { ca with
          workerResolvers := ca.workerResolvers.filter (fun r => r.1 != qid) } } with hW1def
        have hfse1 : findSession W1 p.2 = some s := hfse
        have hres1 := resolveAnswer_true hfse1 hresq
        rw [hres1]
        dsimp only
        rw [if_pos rfl]
        intro hx
        unfold questionIds at hx
        rw [questionResumed_pendingQuestions] at hx
        exact absurd hx (not_mem_ids_filter qid _)

/-- A dashboard answer call that succeeds finds its question pending. -/
theorem step_direct_true_mem {w : World} {qid : Nat} (h : WorldInv w) (op : Op)
    (hop : isDirectAnswerCall op qid = true)
    (ht : isTrueResult (applyOp op w).1 = true) : qid ∈ questionIds w := by
  cases op with
  | submitAnswer q2 =>
    have hq : q2 = qid := by simpa [isDirectAnswerCall] using hop
    subst hq
    have ht2 : isTrueResult (OpResult.bool (submitAnswer q2 w).1) = true := ht
    cases hb : (submitAnswer q2 w).1 with
    | false =>
      rw [hb] at ht2
      simp [isTrueResult] at ht2
    | true => exact submitAnswer_true_mem hb
  | submitEscalationAnswer q2 =>
    have hq : q2 = qid := by simpa [isDirectAnswerCall] using hop
    subst hq
    have ht2 : isTrueResult (OpResult.bool (submitEscalationAnswer q2 w).1) = true := ht
    cases hb : (submitEscalationAnswer q2 w).1 with
    | false =>
      rw [hb] at ht2
      simp [isTrueResult] at ht2
    | true => exact submitEscalationAnswer_true_mem h hb
  | startAgent pn pp pr script => simp [isDirectAnswerCall] at hop
  | engineStep sid => simp [isDirectAnswerCall] at hop
  | answerWorkerQuestion q2 => simp [isDirectAnswerCall] at hop
  | escalateToHuman q2 reason => simp [isDirectAnswerCall] at hop
  | stopAgent sid => simp [isDirectAnswerCall] at hop
  | startCoordinator d => simp [isDirectAnswerCall] at hop
  | sendDirective t => simp [isDirectAnswerCall] at hop
  | stopCoordinator => simp [isDirectAnswerCall] at hop
  | coordSessionInit csid => simp [isDirectAnswerCall] at hop

/-- A dashboard answer call that succeeds consumes its question. -/
theorem step_direct_true_removed {w : World} {qid : Nat} (h : WorldInv w) (op : Op)
    (hop : isDirectAnswerCall op qid = true)
    (ht : isTrueResult (applyOp op w).1 = true) :
    qid ∉ questionIds (applyOp op w).2 := by
  cases op with
  | submitAnswer q2 =>
    have hq : q2 = qid := by simpa [isDirectAnswerCall] using hop
    subst hq
    have ht2 : isTrueResult (OpResult.bool (submitAnswer q2 w).1) = true := ht
    cases hb : (submitAnswer q2 w).1 with
    | false =>
      rw [hb] at ht2
      simp [isTrueResult] at ht2
    | true => exact submitAnswer_true_removed hb
  | submitEscalationAnswer q2 =>
    have hq : q2 = qid := by simpa [isDirectAnswerCall] using hop
    subst hq
    have ht2 : isTrueResult (OpResult.bool (submitEscalationAnswer q2 w).1) = true := ht
    cases hb : (submitEscalationAnswer q2 w).1 with
    | false =>
      rw [hb] at ht2
      simp [isTrueResult] at ht2
    | true => exact submitEscalationAnswer_true_removed h hb
  | startAgent pn pp pr script => simp [isDirectAnswerCall] at hop
  | engineStep sid => simp [isDirectAnswerCall] at hop
  | answerWorkerQuestion q2 => simp [isDirectAnswerCall] at hop
  | escalateToHuman q2 reason => simp [isDirectAnswerCall] at hop
  | stopAgent sid => simp [isDirectAnswerCall] at hop
  | startCoordinator d => simp [isDirectAnswerCall] at hop
  | sendDirective t => simp [isDirectAnswerCall] at hop
  | stopCoordinator => simp [isDirectAnswerCall] at hop
  | coordSessionInit csid => simp [isDirectAnswerCall] at hop

/-- A worker-tool answer call that succeeds finds its stored resolver. -/
theorem step_tool_true_mem {w : World} {qid : Nat} (op : Op)
    (hop : isToolAnswerCall op qid = true)
    (ht : isTrueResult (applyOp op w).1 = true) : qid ∈ wkeys w := by
  cases op with
  | answerWorkerQuestion q2 =>
    have hq : q2 = qid := by simpa [isToolAnswerCall] using hop
    subst hq
    have ht2 : isTrueResult (OpResult.bool (answer_worker_question q2 w).1) = true := ht
    cases hb : (answer_worker_question q2 w).1 with
    | false =>
      rw [hb] at ht2
      simp [isTrueResult] at ht2
    | true => exact awq_true_mem hb
  | startAgent pn pp pr script => simp [isToolAnswerCall] at hop
  | engineStep sid => simp [isToolAnswerCall] at hop
  | submitAnswer q2 => simp [isToolAnswerCall] at hop
  | submitEscalationAnswer q2 => simp [isToolAnswerCall] at hop
  | escalateToHuman q2 reason => simp [isToolAnswerCall] at hop
  | stopAgent sid => simp [isToolAnswerCall] at hop
  | startCoordinator d => simp [isToolAnswerCall] at hop
  | sendDirective t => simp [isToolAnswerCall] at hop
  | stopCoordinator => simp [isToolAnswerCall] at hop
  | coordSessionInit csid => simp [isToolAnswerCall] at hop

/-- A worker-tool answer call that succeeds consumes its stored resolver. -/
theorem step_tool_true_removed {w : World} {qid : Nat} (op : Op)
    (hop : isToolAnswerCall op qid = true)
    (ht : isTrueResult (applyOp op w).1 = true) :
    qid ∉ wkeys (applyOp op w).2 := by
  cases op with
  | answerWorkerQuestion q2 =>
    have hq : q2 = qid := by simpa [isToolAnswerCall] using hop
    subst hq
    have ht2 : isTrueResult (OpResult.bool (answer_worker_question q2 w).1) = true := ht
    cases hb : (answer_worker_question q2 w).1 with
    | false =>
      rw [hb] at ht2
      simp [isTrueResult] at ht2
    | true => exact awq_true_removed hb
  | startAgent pn pp pr script => simp [isToolAnswerCall] at hop
  | engineStep sid => simp [isToolAnswerCall] at hop
  | submitAnswer q2 => simp [isToolAnswerCall] at hop
  | submitEscalationAnswer q2 => simp [isToolAnswerCall] at hop
  | escalateToHuman q2 reason => simp [isToolAnswerCall] at hop
  | stopAgent sid => simp [isToolAnswerCall] at hop
  | startCoordinator d => simp [isToolAnswerCall] at hop
  | sendDirective t => simp [isToolAnswerCall] at hop
  | stopCoordinator => simp [isToolAnswerCall] at hop
  | coordSessionInit csid => simp [isToolAnswerCall] at hop

theorem qid_lt_of_memQ {w : World} {qid : Nat} (h : WorldInv w)
    (hm : qid ∈ questionIds w) : qid < w.nextId := by
  obtain ⟨q, hq, hqx⟩ := List.mem_map.mp hm
  rw [← hqx]
  exact h.qFresh q hq

theorem qid_lt_of_memW {w : World} {qid : Nat} (h : WorldInv w)
    (hm : qid ∈ wkeys w) : qid < w.nextId := by
  obtain ⟨p, hp, hpx⟩ := List.mem_map.mp hm
  rw [← hpx]
  exact h.wFresh p hp

theorem deadQ_step {w : World} {qid : Nat} (op : Op)
    (hm : qid ∉ questionIds w) (hlt : qid < w.nextId) :
    qid ∉ questionIds (applyOp op w).2 ∧ qid < (applyOp op w).2.nextId := by
  constructor
  · intro hx
    rcases questionIds_sub_applyOp op w qid hx with hold | hnew
    · exact hm hold
    · omega
  · exact lt_of_lt_of_le hlt (applyOp_nextId_mono op w)

theorem deadW_step {w : World} {qid : Nat} (op : Op)
    (hm : qid ∉ wkeys w) (hlt : qid < w.nextId) :
    qid ∉ wkeys (applyOp op w).2 ∧ qid < (applyOp op w).2.nextId := by
  constructor
  · intro hx
    rcases wkeys_sub_applyOp op w qid hx with hold | hnew
    · exact hm hold
    · omega
  · exact lt_of_lt_of_le hlt (applyOp_nextId_mono op w)

/-- Along any reachable run, at most one dashboard answer call per question
succeeds; and none succeeds once the question is dead. -/
theorem directTrueCount_run (qid : Nat) : ∀ (ops : List Op) (v : World), WorldInv v →
    directTrueCount (runOpsAnn v ops).2 qid ≤ 1
    ∧ (qid ∉ questionIds v → qid < v.nextId →
        directTrueCount (runOpsAnn v ops).2 qid = 0) := by
  intro ops
  induction ops with
  | nil =>
    intro v hv
    constructor
    · simp [runOpsAnn, directTrueCount]
    · intro _ _
      simp [runOpsAnn, directTrueCount]
  | cons op rest ih =>
    intro v hv
    have hv1 : WorldInv (applyOp op v).2 := applyOp_inv op hv
    have ihv := ih (applyOp op v).2 hv1
    rw [runOpsAnn_cons]
    dsimp only
    constructor
    · by_cases hhead : (isDirectAnswerCall op qid && isTrueResult (applyOp op v).1) = true
      · have hsplit := hhead
        rw [Bool.and_eq_true] at hsplit
        obtain ⟨hop, ht⟩ := hsplit
        have hmem := step_direct_true_mem hv op hop ht
        have hlt : qid < v.nextId := qid_lt_of_memQ hv hmem
        have hdead := step_direct_true_removed hv op hop ht
        have hlt1 : qid < (applyOp op v).2.nextId :=
          lt_of_lt_of_le hlt (applyOp_nextId_mono op v)
        have htail := ihv.2 hdead hlt1
        unfold directTrueCount
        rw [List.countP_cons]
        have htail2 : List.countP (fun p => isDirectAnswerCall p.1 qid && isTrueResult p.2)
            (runOpsAnn (applyOp op v).2 rest).2 = 0 := htail
        rw [htail2]
        simp [hhead]
      · have hheadf : (isDirectAnswerCall op qid && isTrueResult (applyOp op v).1) = false := by
          cases hb : (isDirectAnswerCall op qid && isTrueResult (applyOp op v).1)
          · rfl
          · exact absurd hb hhead
        have hle : List.countP (fun p => isDirectAnswerCall p.1 qid && isTrueResult p.2)
            (runOpsAnn (applyOp op v).2 rest).2 ≤ 1 := ihv.1
        unfold directTrueCount
        rw [List.countP_cons]
        simp [hheadf]
        exact hle
    · intro hq hlt
      obtain ⟨hq1, hlt1⟩ := deadQ_step op hq hlt
      have htail := ihv.2 hq1 hlt1
      have hheadf : (isDirectAnswerCall op qid && isTrueResult (applyOp op v).1) = false := by
        cases hb : (isDirectAnswerCall op qid && isTrueResult (applyOp op v).1)
        · rfl
        · exfalso
          have hsplit := hb
          rw [Bool.and_eq_true] at hsplit
          obtain ⟨hop, ht⟩ := hsplit
          exact hq (step_direct_true_mem hv op hop ht)
      unfold directTrueCount
      rw [List.countP_cons]
      have htail2 : List.countP (fun p => isDirectAnswerCall p.1 qid && isTrueResult p.2)
          (runOpsAnn (applyOp op v).2 rest).2 = 0 := htail
      rw [htail2]
      simp [hheadf]

/-- Along any reachable run, at most one `answer_worker_question` call per
question succeeds; and none succeeds once the stored resolver is dead. -/
theorem toolTrueCount_run (qid : Nat) : ∀ (ops : List Op) (v : World), WorldInv v →
    toolTrueCount (runOpsAnn v ops).2 qid ≤ 1
    ∧ (qid ∉ wkeys v → qid < v.nextId →
        toolTrueCount (runOpsAnn v ops).2 qid = 0) := by
  intro ops
  induction ops with
  | nil =>
    intro v hv
    constructor
    · simp [runOpsAnn, toolTrueCount]
    · intro _ _
      simp [runOpsAnn, toolTrueCount]
  | cons op rest ih =>
    intro v hv
    have hv1 : WorldInv (applyOp op v).2 := applyOp_inv op hv
    have ihv := ih (applyOp op v).2 hv1
    rw [runOpsAnn_cons]
    dsimp only
    constructor
    · by_cases hhead : (isToolAnswerCall op qid && isTrueResult (applyOp op v).1) = true
      · have hsplit := hhead
        rw [Bool.and_eq_true] at hsplit
        obtain ⟨hop, ht⟩ := hsplit
        have hmem := step_tool_true_mem op hop ht
        have hlt : qid < v.nextId := qid_lt_of_memW hv hmem
        have hdead := step_tool_true_removed op hop ht
        have hlt1 : qid < (applyOp op v).2.nextId :=
          lt_of_lt_of_le hlt (applyOp_nextId_mono op v)
        have htail := ihv.2 hdead hlt1
        unfold toolTrueCount
        rw [List.countP_cons]
        have htail2 : List.countP (fun p => isToolAnswerCall p.1 qid && isTrueResult p.2)
            (runOpsAnn (applyOp op v).2 rest).2 = 0 := htail
        rw [htail2]
        simp [hhead]
      · have hheadf : (isToolAnswerCall op qid && isTrueResult (applyOp op v).1) = false := by
          cases hb : (isToolAnswerCall op qid && isTrueResult (applyOp op v).1)
          · rfl
          · exact absurd hb hhead
        have hle : List.countP (fun p => isToolAnswerCall p.1 qid && isTrueResult p.2)
            (runOpsAnn (applyOp op v).2 rest).2 ≤ 1 := ihv.1
        unfold toolTrueCount
        rw [List.countP_cons]
        simp [hheadf]
        exact hle
    · intro hq hlt
      obtain ⟨hq1, hlt1⟩ := deadW_step op hq hlt
      have htail := ihv.2 hq1 hlt1
      have hheadf : (isToolAnswerCall op qid && isTrueResult (applyOp op v).1) = false := by
        cases hb : (isToolAnswerCall op qid && isTrueResult (applyOp op v).1)
        · rfl
        · exfalso
          have hsplit := hb
          rw [Bool.and_eq_true] at hsplit
          obtain ⟨hop, ht⟩ := hsplit
          exact hq (step_tool_true_mem op hop ht)
      unfold toolTrueCount
      rw [List.countP_cons]
      have htail2 : List.countP (fun p => isToolAnswerCall p.1 qid && isTrueResult p.2)
          (runOpsAnn (applyOp op v).2 rest).2 = 0 := htail
      rw [htail2]
      simp [hheadf]

/-- C1: answering a question consumes a single-use resolver per surface —
the dashboard-facing promise bridge (`submitAnswer` /
`submitEscalationAnswer`) and the coordinator tool's
`pendingWorkerResolvers` are each one-shot per question id: along any run
from the initial state, at most one dashboard answer call and at most one
`answer_worker_question` call succeed for a given question.  (The two maps
are consumed independently, so one success of each can coexist — see the
counterexample.) -/
theorem answer_submission_single_success_per_map :
    ∀ (ops : List Op) (qid : Nat),
      directTrueCount (runOpsAnn initialWorld ops).2 qid ≤ 1
      ∧ toolTrueCount (runOpsAnn initialWorld ops).2 qid ≤ 1 :=
  fun ops qid => ⟨(directTrueCount_run qid ops initialWorld initialWorld_inv).1,
    (toolTrueCount_run qid ops initialWorld initialWorld_inv).1⟩

theorem find?_append_single {nid : Nat} (g : Session → Session)
    (hg : ∀ s, (g s).id = s.id) {l : List Session}
    (hl : ∀ s ∈ l, s.id ≠ nid) (z : Session) (hz : z.id = nid) :
    ((l ++ [z]).map g).find? (fun s => s.id == nid) = some (g z) := by
  induction l with
  | nil =>
    simp only [List.nil_append, List.map_cons, List.map_nil]
    refine List.find?_cons_of_pos _ ?_
    simp [hg z, hz]
  | cons y t ih =>
    have hne : ¬ ((g y).id == nid) = true := by
      simp [hg y]
      exact hl y (List.mem_cons_self y t)
    rw [List.cons_append, List.map_cons,
      List.find?_cons_of_neg (List.map g (t ++ [z])) hne]
    exact ih (fun s hs => hl s (List.mem_cons_of_mem y hs))

theorem findSession_setStatusW (w : World) (sid sid2 : Nat) (st : AgentStatus) :
    findSession (setStatusW w sid st) sid2
      = (w.sessions.map (fun s =>
          if s.id == sid then { s with status := st, statusHistory := s.statusHistory ++ [st] } else s)).find?
        (fun s => s.id == sid2) := by
  unfold findSession
  rw [setStatusW_sessions]

/-- On a state whose session ids are all below the counter, `startAgent`
returns the snapshot of the freshly registered session after the
synchronous prefix of `start()`: fresh id and status `working`. -/
theorem startAgent_info {w : World} (pn pp pr : String) (script : List EngineEvent)
    (hF : ∀ s ∈ w.sessions, s.id < w.nextId) :
    (startAgent pn pp pr script w).1.id = w.nextId
    ∧ (startAgent pn pp pr script w).1.status = AgentStatus.working := by
  have hg : ∀ s : Session, ((fun s => if s.id == w.nextId then { s with
      status := AgentStatus.working,
      statusHistory := s.statusHistory ++ [AgentStatus.working] } else s) s).id = s.id := by
    intro s
    by_cases hs : (s.id == w.nextId) = true
    · simp [hs]
    · simp [hs]
  have hl : ∀ s ∈ w.sessions, s.id ≠ w.nextId := by
    intro s hs
    have := hF s hs
    omega
  have hfind := find?_append_single (fun s => if s.id == w.nextId then { s with
      status := AgentStatus.working,
      statusHistory := s.statusHistory ++ [AgentStatus.working] } else s) hg hl
    (⟨w.nextId, pn, pp, pr, AgentStatus.starting, [AgentStatus.starting], [],
      SessionExec.running script, none, false⟩ : Session) rfl
  unfold startAgent
  dsimp only
  simp only [freshId_fst]
  rw [findSession_onActivityW, findSession_setStatusW]
  dsimp only
  simp only [freshId_sessions]
  rw [hfind]
  refine ⟨?_, ?_⟩
  · simp [getInfo]
  · simp [getInfo]

/-- Along a reachable run, every `startAgent` snapshot is `working` and the
snapshot ids are strictly increasing, hence distinct. -/
theorem startedInfos_run : ∀ (ops : List Op) (v : World), WorldInv v →
    (∀ i ∈ startedInfos (runOpsAnn v ops).2, v.nextId ≤ i.id
      ∧ i.status = AgentStatus.working)
    ∧ ((startedInfos (runOpsAnn v ops).2).map (fun i => i.id)).Pairwise
        (fun a b => a < b) := by
  intro ops
  induction ops with
  | nil =>
    intro v hv
    constructor
    · intro i hi
      simp [runOpsAnn, startedInfos] at hi
    · simp [runOpsAnn, startedInfos]
  | cons op rest ih =>
    intro v hv
    have hv1 : WorldInv (applyOp op v).2 := applyOp_inv op hv
    have ihv := ih (applyOp op v).2 hv1
    rw [runOpsAnn_cons]
    dsimp only
    cases op with
    | startAgent pn pp pr script =>
      have hinfo := startAgent_info pn pp pr script (fun s hs => hv.sFresh s hs)
      have hcons : startedInfos ((Op.startAgent pn pp pr script,
            (applyOp (Op.startAgent pn pp pr script) v).1)
            :: (runOpsAnn (applyOp (Op.startAgent pn pp pr script) v).2 rest).2)
          = (startAgent pn pp pr script v).1
            :: startedInfos (runOpsAnn (applyOp (Op.startAgent pn pp pr script) v).2
              rest).2 := rfl
      rw [hcons]
      have hnext : (applyOp (Op.startAgent pn pp pr script) v).2.nextId
          = v.nextId + 2 := rfl
      constructor
      · intro i hi
        rcases List.mem_cons.mp hi with hhd | hitail
        · constructor
          · rw [hhd, hinfo.1]
          · rw [hhd]
            exact hinfo.2
        · have hres := ihv.1 i hitail
          constructor
          · refine le_trans ?_ hres.1
            rw [hnext]
            omega
          · exact hres.2
      · rw [List.map_cons]
        refine List.Pairwise.cons ?_ ihv.2
        intro b hb
        obtain ⟨j, hj, hjb⟩ := List.mem_map.mp hb
        have hj2 := (ihv.1 j hj).1
        rw [hinfo.1, ← hjb]
        rw [hnext] at hj2
        omega
    | engineStep sid =>
      constructor
      · intro i hi
        have hres := ihv.1 i hi
        exact ⟨le_trans (applyOp_nextId_mono (Op.engineStep sid) v) hres.1, hres.2⟩
      · exact ihv.2
    | submitAnswer qid =>
      constructor
      · intro i hi
        have hres := ihv.1 i hi
        exact ⟨le_trans (applyOp_nextId_mono (Op.submitAnswer qid) v) hres.1, hres.2⟩
      · exact ihv.2
    | submitEscalationAnswer qid =>
      constructor
      · intro i hi
        have hres := ihv.1 i hi
        exact ⟨le_trans (applyOp_nextId_mono (Op.submitEscalationAnswer qid) v) hres.1,
          hres.2⟩
      · exact ihv.2
    | answerWorkerQuestion qid =>
      constructor
      · intro i hi
        have hres := ihv.1 i hi
        exact ⟨le_trans (applyOp_nextId_mono (Op.answerWorkerQuestion qid) v) hres.1,
          hres.2⟩
      · exact ihv.2
    | escalateToHuman qid reason =>
      constructor
      · intro i hi
        have hres := ihv.1 i hi
        exact ⟨le_trans (applyOp_nextId_mono (Op.escalateToHuman qid reason) v) hres.1,
          hres.2⟩
      · exact ihv.2
    | stopAgent sid =>
      constructor
      · intro i hi
        have hres := ihv.1 i hi
        exact ⟨le_trans (applyOp_nextId_mono (Op.stopAgent sid) v) hres.1, hres.2⟩
      · exact ihv.2
    | startCoordinator d =>
      constructor
      · intro i hi
        have hres := ihv.1 i hi
        exact ⟨le_trans (applyOp_nextId_mono (Op.startCoordinator d) v) hres.1, hres.2⟩
      · exact ihv.2
    | sendDirective t =>
      constructor
      · intro i hi
        have hres := ihv.1 i hi
        exact ⟨le_trans (applyOp_nextId_mono (Op.sendDirective t) v) hres.1, hres.2⟩
      · exact ihv.2
    | stopCoordinator =>
      constructor
      · intro i hi
        have hres := ihv.1 i hi
        exact ⟨le_trans (applyOp_nextId_mono Op.stopCoordinator v) hres.1, hres.2⟩
      · exact ihv.2
    | coordSessionInit csid =>
      constructor
      · intro i hi
        have hres := ihv.1 i hi
        exact ⟨le_trans (applyOp_nextId_mono (Op.coordSessionInit csid) v) hres.1,
          hres.2⟩
      · exact ihv.2

/-- C2: each `startAgent` call returns a snapshot of the new session taken
after the synchronous prefix of `start()` has run: along any run from the
initial state, the returned snapshots carry pairwise distinct identifiers
and report status `working` (never `starting`). -/
theorem startAgent_snapshots_fresh_and_working :
    ∀ ops : List Op,
      (∀ i ∈ startedInfos (runOpsAnn initialWorld ops).2,
        i.status = AgentStatus.working)
      ∧ ((startedInfos (runOpsAnn initialWorld ops).2).map (fun i => i.id)).Nodup := by
  intro ops
  have h := startedInfos_run ops initialWorld initialWorld_inv
  constructor
  · intro i hi
    exact (h.1 i hi).2
  · exact List.Pairwise.imp (fun hab => Nat.ne_of_lt hab) h.2

/-- Witness for the amended C2 statement on a concrete two-start run. -/
theorem startAgent_snapshots_fresh_and_working_witness :
    (∀ i ∈ startedInfos (runOpsAnn initialWorld [Op.startAgent "p" "/p" "t" [],
        Op.startAgent "q" "/q" "u" []]).2, i.status = AgentStatus.working)
    ∧ ((startedInfos (runOpsAnn initialWorld [Op.startAgent "p" "/p" "t" [],
        Op.startAgent "q" "/q" "u" []]).2).map (fun i => i.id)).Nodup :=
  startAgent_snapshots_fresh_and_working
    [Op.startAgent "p" "/p" "t" [], Op.startAgent "q" "/q" "u" []]
